import Mathlib

/-!
# Maze Clash server — verification of the core game logic

Shallow embedding of the game server (file `server.js`) of the Maze Clash
repository: maze generation by randomized depth-first carving, spawn
placement, the single-slot matchmaking rendezvous, the move handler with win
detection, and disconnect-driven teardown.

Modelling conventions:
* JavaScript numbers holding tile/cell coordinates are embedded as `Int`
  (all arithmetic on them in the source is exact integer arithmetic).
* The tile grid is a rectangular array initialized to all `TILE_WALL` and
  mutated only by setting individual tiles to `TILE_EMPTY`; it is therefore
  represented by the `Finset` of its empty (carved) tiles together with its
  width and height.  A tile is a wall iff it is not in the set.
* `Math.random()` is embedded as an arbitrary stream `rng : Nat → Nat`
  together with a counter threading the stream position; a draw
  `Math.floor(Math.random() * k)` at position `t` becomes `rng t % k`,
  which ranges over exactly the same values `0 … k-1`.
* The recursion of `carve` in the source is unbounded; here it carries
  explicit fuel.  The source recursion always terminates because every call
  visits a fresh logical cell, so fuel `n*n` (the number of logical cells)
  is never exhausted; the invariant proofs below carry the corresponding
  bound as a hypothesis.
-/

/-- A tile (or logical cell) coordinate `(x, y)`. -/
abbrev Tile := ℤ × ℤ

/-- The tile corresponding to logical cell `c`: `g[cy*2+1][cx*2+1]`. -/
def cellTile (c : Tile) : Tile := (2 * c.1 + 1, 2 * c.2 + 1)

/-- The wall tile opened between cell `c` and its neighbor in direction `d`:
`g[cy*2+1+dy][cx*2+1+dx]`. -/
def wallT (c d : Tile) : Tile := (2 * c.1 + 1 + d.1, 2 * c.2 + 1 + d.2)

/-- The direction list `[[1,0],[-1,0],[0,1],[0,-1]]` of `carve`. -/
def dirs0 : List Tile := [(1, 0), (-1, 0), (0, 1), (0, -1)]

/-- A tile lying between two horizontally or vertically adjacent cells:
exactly one coordinate even.  These are the "connecting passage" tiles. -/
def isPassage (t : Tile) : Prop :=
  (t.1 % 2 = 0 ∧ t.2 % 2 = 1) ∨ (t.1 % 2 = 1 ∧ t.2 % 2 = 0)

instance (t : Tile) : Decidable (isPassage t) := by unfold isPassage; infer_instance

/-- A tile sitting at the center of a logical cell: both coordinates odd. -/
def bothOdd (t : Tile) : Prop := t.1 % 2 = 1 ∧ t.2 % 2 = 1

instance (t : Tile) : Decidable (bothOdd t) := by unfold bothOdd; infer_instance

/-- The logical cell grid `[0, n) × [0, n)` as a finite set. -/
def cellsF (n : ℤ) : Finset Tile := Finset.Icc 0 (n - 1) ×ˢ Finset.Icc 0 (n - 1)

/-- A tile lies inside the `(2n+1) × (2n+1)` grid of `generateMaze n`. -/
def inTB (n : ℤ) (t : Tile) : Prop :=
  0 ≤ t.1 ∧ t.1 < 2 * n + 1 ∧ 0 ≤ t.2 ∧ t.2 < 2 * n + 1

instance (n : ℤ) (t : Tile) : Decidable (inTB n t) := by unfold inTB; infer_instance

/-- Two tiles are 4-neighbors. -/
def tileAdj (u v : Tile) : Prop :=
  (u.1 = v.1 ∧ (u.2 = v.2 + 1 ∨ v.2 = u.2 + 1)) ∨
  (u.2 = v.2 ∧ (u.1 = v.1 + 1 ∨ v.1 = u.1 + 1))

/-- Reachability between tiles by steps through the set `s` of empty tiles:
connectivity of the empty region of the grid. -/
def Reach (s : Finset Tile) (u v : Tile) : Prop :=
  Relation.ReflTransGen (fun a b => a ∈ s ∧ b ∈ s ∧ tileAdj a b) u v

/-- State of the maze generator: the set of tiles already set to `TILE_EMPTY`,
the set of visited logical cells, and the position in the random stream. -/
structure CarveSt where
  carved : Finset Tile
  visited : Finset Tile
  ctr : ℕ
deriving DecidableEq

/-- The in-place swap `[dirs[i], dirs[j]] = [dirs[j], dirs[i]]`. -/
def listSwap (l : List Tile) (i j : ℕ) : List Tile :=
  (l.set i (l.getD j (0, 0))).set j (l.getD i (0, 0))

/-- The Fisher–Yates loop of `carve`:
for `i` from `len-1` down to `1`, pick `j = Math.floor(Math.random()*(i+1))`
(at stream position `t`) and swap.  Returns the shuffled list and the new
stream position. -/
def fyLoop (rng : ℕ → ℕ) : ℕ → ℕ → List Tile → List Tile × ℕ
  | 0, t, l => (l, t)
  | i + 1, t, l => fyLoop rng i (t + 1) (listSwap l (i + 1) (rng t % (i + 2)))

/-- Shuffling of the direction list in `carve`. -/
def shuffleDirs (rng : ℕ → ℕ) (t : ℕ) : List Tile × ℕ := fyLoop rng 3 t dirs0

/-- The recursive carver of `generateMaze`:
mark the cell visited, open its tile, then for each direction of the shuffled
list, if the neighbor is an in-bounds unvisited cell, open the connecting wall
tile and the neighbor tile and recurse.  `fuel` bounds the recursion depth
(the source recursion is unbounded but each call visits a fresh cell). -/
def carve (rng : ℕ → ℕ) (n : ℤ) : ℕ → Tile → CarveSt → CarveSt
  | 0, _, st => st
  | fuel + 1, c, st =>
    let pr := shuffleDirs rng st.ctr
    pr.1.foldl
      (fun st2 d =>
        let nc : Tile := (c.1 + d.1, c.2 + d.2)
        if 0 ≤ nc.1 ∧ nc.1 < n ∧ 0 ≤ nc.2 ∧ nc.2 < n ∧ nc ∉ st2.visited then
          carve rng n fuel nc
            { st2 with carved := insert (cellTile nc) (insert (wallT c d) st2.carved) }
        else st2)
      ⟨insert (cellTile c) st.carved, insert c st.visited, pr.2⟩

/-- One iteration of the direction loop of `carve` (the lambda in the fold). -/
def carveStep (rng : ℕ → ℕ) (n : ℤ) (fuel : ℕ) (c : Tile) (st2 : CarveSt) (d : Tile) :
    CarveSt :=
  if 0 ≤ c.1 + d.1 ∧ c.1 + d.1 < n ∧ 0 ≤ c.2 + d.2 ∧ c.2 + d.2 < n ∧
      (c.1 + d.1, c.2 + d.2) ∉ st2.visited then
    carve rng n fuel (c.1 + d.1, c.2 + d.2)
      { st2 with
        carved := insert (cellTile (c.1 + d.1, c.2 + d.2))
          (insert (wallT c d) st2.carved) }
  else st2

/-- The maze record returned by `generateMaze`: the set of empty tiles of the
grid and the grid dimensions. -/
structure Maze where
  carved : Finset Tile
  width : ℤ
  height : ℤ
deriving DecidableEq

/-- `generateMaze(n)`: an all-wall `(2n+1) × (2n+1)` grid carved by
`carve(0, 0)`, starting at stream position `t` (also returned updated). -/
def generateMaze (rng : ℕ → ℕ) (n : ℕ) (t : ℕ) : Maze × ℕ :=
  let st := carve rng (n : ℤ) (n * n) (0, 0) ⟨∅, ∅, t⟩
  (⟨st.carved, 2 * (n : ℤ) + 1, 2 * (n : ℤ) + 1⟩, st.ctr)

/-! ## Invariants of the carver -/

/-- The passage tiles of a set of empty tiles. -/
def passages (s : Finset Tile) : Finset Tile := s.filter isPassage

/-- Structural invariant of the carver state: visited cells stay in the
logical grid, every carved passage tile joins two visited adjacent cells,
carved cell-center tiles are exactly those of visited cells, every carved
tile is a cell or a passage tile inside the grid, and every carved tile is
reachable through the carved set from the start tile `(1, 1)`. -/
structure StInv (n : ℤ) (carved visited : Finset Tile) : Prop where
  hvs : visited ⊆ cellsF n
  hpass : ∀ t ∈ carved, isPassage t →
    ∃ a d, d ∈ dirs0 ∧ t = wallT a d ∧ a ∈ visited ∧ (a.1 + d.1, a.2 + d.2) ∈ visited
  hcell : ∀ t ∈ carved, bothOdd t → ∃ a ∈ visited, t = cellTile a
  hrev : ∀ a ∈ visited, cellTile a ∈ carved
  hclass : ∀ t ∈ carved, isPassage t ∨ bothOdd t
  hbnd : ∀ t ∈ carved, inTB n t
  hreach : ∀ t ∈ carved, Reach carved (1, 1) t

/-- Precondition for `carve rng n fuel c st`. -/
structure CarvePre (n : ℤ) (fuel : ℕ) (c : Tile) (st : CarveSt) : Prop where
  hc : c ∈ cellsF n
  hnv : c ∉ st.visited
  hfuel : (cellsF n \ st.visited).card ≤ fuel
  hinv : StInv n (insert (cellTile c) st.carved) (insert c st.visited)

/-- Postcondition of `carve rng n fuel c st`. -/
structure CarvePost (n : ℤ) (c : Tile) (st stf : CarveSt) : Prop where
  hcm : st.carved ⊆ stf.carved
  hvm : insert c st.visited ⊆ stf.visited
  hcount : (passages stf.carved).card + st.visited.card + 1 =
    (passages st.carved).card + stf.visited.card
  hinv : StInv n stf.carved stf.visited
  hclose : ∀ a ∈ stf.visited, a ∉ st.visited → ∀ d ∈ dirs0,
    (a.1 + d.1, a.2 + d.2) ∈ cellsF n → (a.1 + d.1, a.2 + d.2) ∈ stf.visited

/-- Precondition for the direction loop of `carve` at cell `c`. -/
structure LoopPre (n : ℤ) (fuel : ℕ) (c : Tile) (st : CarveSt) : Prop where
  hc : c ∈ cellsF n
  hcv : c ∈ st.visited
  hct : cellTile c ∈ st.carved
  hfuel : (cellsF n \ st.visited).card ≤ fuel
  hinv : StInv n st.carved st.visited

/-- Postcondition of the direction loop of `carve` at cell `c` over the
remaining direction list `ds`. -/
structure LoopPost (n : ℤ) (c : Tile) (ds : List Tile) (st stf : CarveSt) : Prop where
  hcm : st.carved ⊆ stf.carved
  hvm : st.visited ⊆ stf.visited
  hcount : (passages stf.carved).card + st.visited.card =
    (passages st.carved).card + stf.visited.card
  hinv : StInv n stf.carved stf.visited
  hds : ∀ d ∈ ds, (c.1 + d.1, c.2 + d.2) ∈ cellsF n → (c.1 + d.1, c.2 + d.2) ∈ stf.visited
  hclose : ∀ a ∈ stf.visited, a ∉ st.visited → ∀ d ∈ dirs0,
    (a.1 + d.1, a.2 + d.2) ∈ cellsF n → (a.1 + d.1, a.2 + d.2) ∈ stf.visited

/-! ## Spawn placement: pickRandomCell, the retry loop and the fallback scan

The source compares Euclidean distances `Math.sqrt(dx*dx+dy*dy)` against
`max(W,H) * 0.45` and against each other.  For the integer coordinates in
play these floating-point comparisons are exact, and `sqrt` is strictly
monotone, so they are embedded as comparisons of squared integer distances:
`dist(a,b) < 0.45 * mx` iff `400 * sqDist a b < 81 * mx²`. -/

/-- Squared Euclidean distance between two tiles. -/
def sqDist (a b : Tile) : ℤ := (a.1 - b.1) ^ 2 + (a.2 - b.2) ^ 2

/-- `distance(a, b) < max(W,H) * 0.45`, squared to stay in the integers. -/
def closePair (a b : Tile) (mx : ℤ) : Prop := 400 * sqDist a b < 81 * mx ^ 2

instance (a b : Tile) (mx : ℤ) : Decidable (closePair a b mx) := by
  unfold closePair; infer_instance

/-- `leftTopTest`: `x <= Math.floor(gridW * 0.33) || y <= Math.floor(gridH * 0.33)`. -/
def leftTopTest (W H : ℤ) (x y : ℤ) : Bool :=
  decide (x ≤ 33 * W / 100 ∨ y ≤ 33 * H / 100)

/-- `rightBottomTest`: `x >= Math.ceil(gridW * 0.66) || y >= Math.ceil(gridH * 0.66)`. -/
def rightBottomTest (W H : ℤ) (x y : ℤ) : Bool :=
  decide ((66 * W + 99) / 100 ≤ x ∨ (66 * H + 99) / 100 ≤ y)

/-- The row-major list of all grid coordinates (`for y { for x }`). -/
def coordList (w h : ℕ) : List Tile :=
  (List.range h).bind fun y : ℕ => (List.range w).map fun x : ℕ => ((x : ℤ), (y : ℤ))

/-- The random-attempt loop of `pickRandomCell`: up to `attempts` draws of a
uniformly random coordinate pair, accepting the first empty tile satisfying
the region test.  Returns the accepted tile (if any) and the stream position. -/
def pickLoop (rng : ℕ → ℕ) (carved : Finset Tile) (w h : ℕ) (test : ℤ → ℤ → Bool) :
    ℕ → ℕ → Option Tile × ℕ
  | 0, t => (none, t)
  | i + 1, t =>
    if (((rng t % w : ℕ) : ℤ), ((rng (t + 1) % h : ℕ) : ℤ)) ∈ carved ∧
        test ((rng t % w : ℕ) : ℤ) ((rng (t + 1) % h : ℕ) : ℤ) then
      (some (((rng t % w : ℕ) : ℤ), ((rng (t + 1) % h : ℕ) : ℤ)), t + 2)
    else pickLoop rng carved w h test i (t + 2)

/-- `pickRandomCell(grid, regionTest, attempts)`: random attempts, then a
row-major scan for an empty tile in the region, then a row-major scan for any
empty tile, then the absolute fallback `(1, 1)`. -/
def pickRandomCell (rng : ℕ → ℕ) (carved : Finset Tile) (w h : ℕ)
    (test : ℤ → ℤ → Bool) (attempts t : ℕ) : Tile × ℕ :=
  match pickLoop rng carved w h test attempts t with
  | (some p, t2) => (p, t2)
  | (none, t2) =>
    match (coordList w h).find? fun p => decide (p ∈ carved) && test p.1 p.2 with
    | some p => (p, t2)
    | none =>
      match (coordList w h).find? fun p => decide (p ∈ carved) with
      | some p => (p, t2)
      | none => ((1, 1), t2)

/-- The retry loop of the spawn placement: while the two spawns are too
close and fewer than 200 tries were made, re-pick both spawns. -/
def retryLoop (rng : ℕ → ℕ) (carved : Finset Tile) (W H : ℕ) :
    ℕ → Tile → Tile → ℕ → Tile × Tile × ℕ
  | 0, a, b, t => (a, b, t)
  | k + 1, a, b, t =>
    if closePair a b (max (W : ℤ) (H : ℤ)) then
      retryLoop rng carved W H k
        (pickRandomCell rng carved W H (leftTopTest (W : ℤ) (H : ℤ)) 500 t).1
        (pickRandomCell rng carved W H (rightBottomTest (W : ℤ) (H : ℤ)) 500
          (pickRandomCell rng carved W H (leftTopTest (W : ℤ) (H : ℤ)) 500 t).2).1
        (pickRandomCell rng carved W H (rightBottomTest (W : ℤ) (H : ℤ)) 500
          (pickRandomCell rng carved W H (leftTopTest (W : ℤ) (H : ℤ)) 500 t).2).2
    else (a, b, t)

/-- The fallback scan of the spawn placement: the row-major fold computing
the empty tile farthest from `a` (strictly improving, so ties keep the first
maximal tile found); the accumulator starts at `(aStart, -1)`. -/
def bestFold (a : Tile) (carved : Finset Tile) : List Tile → Tile × ℤ → Tile × ℤ
  | [], s => s
  | p :: ps, s =>
    if p ∈ carved ∧ s.2 < sqDist a p then bestFold a carved ps (p, sqDist a p)
    else bestFold a carved ps s

/-- The exhaustive-scan fallback of the spawn placement. -/
def bestScan (a : Tile) (carved : Finset Tile) (W H : ℕ) : Tile :=
  (bestFold a carved (coordList W H) (a, -1)).1

/-- The final distance check of the spawn placement: if the pair is still
too close after the retry loop, replace the second spawn by the scan result. -/
def finishSpawns (carved : Finset Tile) (W H : ℕ) (r : Tile × Tile × ℕ) :
    Tile × Tile × ℕ :=
  if closePair r.1 r.2.1 (max (W : ℤ) (H : ℤ)) then
    (r.1, bestScan r.1 carved W H, r.2.2)
  else r

/-- The spawn placement of the `findMatch` handler: pick both spawns, retry
up to 200 times while they are too close, then fall back to the exhaustive
scan if the separation is still not met. -/
def placeSpawns (rng : ℕ → ℕ) (carved : Finset Tile) (W H : ℕ) (t : ℕ) :
    Tile × Tile × ℕ :=
  finishSpawns carved W H
    (retryLoop rng carved W H 200
      (pickRandomCell rng carved W H (leftTopTest (W : ℤ) (H : ℤ)) 500 t).1
      (pickRandomCell rng carved W H (rightBottomTest (W : ℤ) (H : ℤ)) 500
        (pickRandomCell rng carved W H (leftTopTest (W : ℤ) (H : ℤ)) 500 t).2).1
      (pickRandomCell rng carved W H (rightBottomTest (W : ℤ) (H : ℤ)) 500
        (pickRandomCell rng carved W H (leftTopTest (W : ℤ) (H : ℤ)) 500 t).2).2)

/-! ## Server state, events and handlers

Socket objects are identified by their `id` string (the only field the
handlers use).  JavaScript objects keyed by strings (`rooms`,
`room.players`) are embedded as association lists with first-match lookup;
`delete` removes every entry of the key and in-place mutation of a value is
an update at its key.  `io.to(room).emit(...)` broadcasts are collected in
an event list. -/

/-- The per-player state stored in a room (and sent in payloads):
position, color, and goal (`exitX`/`exitY`). -/
structure PState where
  x : ℤ
  y : ℤ
  color : String
  exitX : ℤ
  exitY : ℤ
deriving DecidableEq

/-- A room: the maze it owns and its players keyed by socket id. -/
structure Room where
  maze : Maze
  players : List (String × PState)
deriving DecidableEq

/-- The process-wide server state: the single matchmaking slot
(`waitingSocket`), the room registry, the pending `setTimeout` teardowns
(delay in milliseconds, room id), and the random-stream position. -/
structure ServerSt where
  waiting : Option String
  rooms : List (String × Room)
  timers : List (ℕ × String)
  ctr : ℕ
deriving DecidableEq

/-- The messages emitted to clients or rooms by the handlers. -/
inductive Ev where
  | statusTo (sid msg : String)
  | statusRoom (rid msg : String)
  | matchFound (rid : String) (carved : Finset Tile) (w h : ℤ)
      (ps : List (String × PState))
  | stateB (rid : String) (ps : List (String × PState))
  | gameOver (rid winner color : String)
  | revealM (rid : String) (carved : Finset Tile)
  | oppDisc (rid : String)
deriving DecidableEq

/-- First-match association-list lookup: the *own-property* part of
JavaScript object indexing.  A raw JavaScript property access also walks
the prototype chain, so for the prototype property names an absent key
yields a truthy inherited value instead of `undefined`; `jsGet` below adds
that layer where a client-controlled key reaches an object lookup.  All
keys of the registry and player maps are server-generated (`r-...` room
ids, socket ids), so for those `alookup` alone is exact. -/
def alookup {β : Type} (k : String) : List (String × β) → Option β
  | [] => none
  | (k2, v) :: l => if k2 = k then some v else alookup k l

/-- Update the entry of key `k` in place (JavaScript object mutation). -/
def setEntry {β : Type} (k : String) (v : β) : List (String × β) → List (String × β)
  | [] => []
  | (k2, v2) :: l => if k2 = k then (k2, v) :: l else (k2, v2) :: setEntry k v l

/-- `MAZE_LOGICAL = 7` (logical cells; final grid 15 × 15). -/
def MAZE_LOGICAL : ℕ := 7

/-- Room id: `r-${a}-${b}-${Date.now()}` (the wall-clock value is a
parameter `now`). -/
def makeRoomId (a b : String) (now : ℕ) : String :=
  "r-" ++ a ++ "-" ++ b ++ "-" ++ toString now

/-- The `findMatch` handler.  `rng`/`now` stand for `Math.random()` and
`Date.now()`.  Either stores the requester in the empty slot, re-signals a
duplicate request from the pending socket, or pairs the two sockets:
generate a maze, place spawns, assign mirrored goals, register the room,
and broadcast the `matchFound` payload and a start notice to the room. -/
def findMatch (rng : ℕ → ℕ) (now : ℕ) (st : ServerSt) (sid : String) :
    ServerSt × List Ev :=
  match st.waiting with
  | none =>
    ({ st with waiting := some sid }, [Ev.statusTo sid "Waiting for an opponent..."])
  | some wid =>
    if wid = sid then (st, [Ev.statusTo sid "Still waiting..."])
    else
      ({ st with
          waiting := none
          rooms := (makeRoomId wid sid now,
            ⟨(generateMaze rng MAZE_LOGICAL st.ctr).1,
              [(wid,
                ⟨(placeSpawns rng (generateMaze rng MAZE_LOGICAL st.ctr).1.carved
                    (2 * MAZE_LOGICAL + 1) (2 * MAZE_LOGICAL + 1)
                    (generateMaze rng MAZE_LOGICAL st.ctr).2).1.1,
                  (placeSpawns rng (generateMaze rng MAZE_LOGICAL st.ctr).1.carved
                    (2 * MAZE_LOGICAL + 1) (2 * MAZE_LOGICAL + 1)
                    (generateMaze rng MAZE_LOGICAL st.ctr).2).1.2,
                  "#34ff72",
                  (placeSpawns rng (generateMaze rng MAZE_LOGICAL st.ctr).1.carved
                    (2 * MAZE_LOGICAL + 1) (2 * MAZE_LOGICAL + 1)
                    (generateMaze rng MAZE_LOGICAL st.ctr).2).2.1.1,
                  (placeSpawns rng (generateMaze rng MAZE_LOGICAL st.ctr).1.carved
                    (2 * MAZE_LOGICAL + 1) (2 * MAZE_LOGICAL + 1)
                    (generateMaze rng MAZE_LOGICAL st.ctr).2).2.1.2⟩),
               (sid,
                ⟨(placeSpawns rng (generateMaze rng MAZE_LOGICAL st.ctr).1.carved
                    (2 * MAZE_LOGICAL + 1) (2 * MAZE_LOGICAL + 1)
                    (generateMaze rng MAZE_LOGICAL st.ctr).2).2.1.1,
                  (placeSpawns rng (generateMaze rng MAZE_LOGICAL st.ctr).1.carved
                    (2 * MAZE_LOGICAL + 1) (2 * MAZE_LOGICAL + 1)
                    (generateMaze rng MAZE_LOGICAL st.ctr).2).2.1.2,
                  "#ff4d9e",
                  (placeSpawns rng (generateMaze rng MAZE_LOGICAL st.ctr).1.carved
                    (2 * MAZE_LOGICAL + 1) (2 * MAZE_LOGICAL + 1)
                    (generateMaze rng MAZE_LOGICAL st.ctr).2).1.1,
                  (placeSpawns rng (generateMaze rng MAZE_LOGICAL st.ctr).1.carved
                    (2 * MAZE_LOGICAL + 1) (2 * MAZE_LOGICAL + 1)
                    (generateMaze rng MAZE_LOGICAL st.ctr).2).1.2⟩)]⟩) :: st.rooms
          ctr := (placeSpawns rng (generateMaze rng MAZE_LOGICAL st.ctr).1.carved
            (2 * MAZE_LOGICAL + 1) (2 * MAZE_LOGICAL + 1)
            (generateMaze rng MAZE_LOGICAL st.ctr).2).2.2 },
       [Ev.matchFound (makeRoomId wid sid now)
          (generateMaze rng MAZE_LOGICAL st.ctr).1.carved
          (generateMaze rng MAZE_LOGICAL st.ctr).1.width
          (generateMaze rng MAZE_LOGICAL st.ctr).1.height
          [(wid,
            ⟨(placeSpawns rng (generateMaze rng MAZE_LOGICAL st.ctr).1.carved
                (2 * MAZE_LOGICAL + 1) (2 * MAZE_LOGICAL + 1)
                (generateMaze rng MAZE_LOGICAL st.ctr).2).1.1,
              (placeSpawns rng (generateMaze rng MAZE_LOGICAL st.ctr).1.carved
                (2 * MAZE_LOGICAL + 1) (2 * MAZE_LOGICAL + 1)
                (generateMaze rng MAZE_LOGICAL st.ctr).2).1.2,
              "#34ff72",
              (placeSpawns rng (generateMaze rng MAZE_LOGICAL st.ctr).1.carved
                (2 * MAZE_LOGICAL + 1) (2 * MAZE_LOGICAL + 1)
                (generateMaze rng MAZE_LOGICAL st.ctr).2).2.1.1,
              (placeSpawns rng (generateMaze rng MAZE_LOGICAL st.ctr).1.carved
                (2 * MAZE_LOGICAL + 1) (2 * MAZE_LOGICAL + 1)
                (generateMaze rng MAZE_LOGICAL st.ctr).2).2.1.2⟩),
           (sid,
            ⟨(placeSpawns rng (generateMaze rng MAZE_LOGICAL st.ctr).1.carved
                (2 * MAZE_LOGICAL + 1) (2 * MAZE_LOGICAL + 1)
                (generateMaze rng MAZE_LOGICAL st.ctr).2).2.1.1,
              (placeSpawns rng (generateMaze rng MAZE_LOGICAL st.ctr).1.carved
                (2 * MAZE_LOGICAL + 1) (2 * MAZE_LOGICAL + 1)
                (generateMaze rng MAZE_LOGICAL st.ctr).2).2.1.2,
              "#ff4d9e",
              (placeSpawns rng (generateMaze rng MAZE_LOGICAL st.ctr).1.carved
                (2 * MAZE_LOGICAL + 1) (2 * MAZE_LOGICAL + 1)
                (generateMaze rng MAZE_LOGICAL st.ctr).2).1.1,
              (placeSpawns rng (generateMaze rng MAZE_LOGICAL st.ctr).1.carved
                (2 * MAZE_LOGICAL + 1) (2 * MAZE_LOGICAL + 1)
                (generateMaze rng MAZE_LOGICAL st.ctr).2).1.2⟩)],
        Ev.statusRoom (makeRoomId wid sid now)
          "Game started — reach the glowing exit!"])

/-- The own properties of the `deltas` object literal: the unit vector of
a direction token, if valid.  This is only the own-property layer of the
JavaScript lookup `deltas[dir]`; the client controls `dir`, and for an
`Object.prototype` property name the real lookup returns a truthy
inherited value instead of `undefined` — see `jsGet` and `moveHandlerJs`
for the full semantics, whose error path decides claim C3. -/
def deltas (dir : String) : Option (ℤ × ℤ) :=
  if dir = "up" then some (0, -1)
  else if dir = "down" then some (0, 1)
  else if dir = "left" then some (-1, 0)
  else if dir = "right" then some (1, 0)
  else none

/-- The `move` handler under the own-property abstraction of the two
client-keyed lookups (`rooms[roomId]`, `deltas[dir]`): reject unknown
rooms, non-members, unknown direction tokens, out-of-bounds or wall
candidates as no-ops; otherwise commit the candidate as the mover's
position, broadcast the room state and, if the mover reached its goal,
broadcast `gameOver` and `revealMaze` and schedule the room teardown
4500 ms later.  `moveHandlerJs` below refines the two lookups with the
prototype-chain semantics, adding the `TypeError` path the abstraction
hides; on every input where neither lookup hits an inherited property the
two handlers agree. -/
def moveHandler (st : ServerSt) (sid rid dir : String) : ServerSt × List Ev :=
  match alookup rid st.rooms with
  | none => (st, [])
  | some r =>
    match alookup sid r.players with
    | none => (st, [])
    | some pl =>
      match deltas dir with
      | none => (st, [])
      | some d =>
        if pl.x + d.1 < 0 ∨ pl.y + d.2 < 0 ∨ r.maze.width ≤ pl.x + d.1 ∨
            r.maze.height ≤ pl.y + d.2 then (st, [])
        else if (pl.x + d.1, pl.y + d.2) ∉ r.maze.carved then (st, [])
        else
          if pl.x + d.1 = pl.exitX ∧ pl.y + d.2 = pl.exitY then
            ({ st with
                rooms := setEntry rid
                  ⟨r.maze, setEntry sid
                    ⟨pl.x + d.1, pl.y + d.2, pl.color, pl.exitX, pl.exitY⟩
                    r.players⟩ st.rooms
                timers := st.timers ++ [(4500, rid)] },
             [Ev.stateB rid
                (setEntry sid ⟨pl.x + d.1, pl.y + d.2, pl.color, pl.exitX, pl.exitY⟩
                  r.players),
              Ev.gameOver rid sid pl.color,
              Ev.revealM rid r.maze.carved])
          else
            ({ st with
                rooms := setEntry rid
                  ⟨r.maze, setEntry sid
                    ⟨pl.x + d.1, pl.y + d.2, pl.color, pl.exitX, pl.exitY⟩
                    r.players⟩ st.rooms },
             [Ev.stateB rid
                (setEntry sid ⟨pl.x + d.1, pl.y + d.2, pl.color, pl.exitX, pl.exitY⟩
                  r.players)])

/-- The property names every plain JavaScript object literal inherits
from `Object.prototype`: indexing an object with one of these yields a
truthy function (or, for the `__proto__` accessor, an object) even when it
is not an own property. -/
def protoKeys : List String :=
  ["constructor", "hasOwnProperty", "isPrototypeOf", "propertyIsEnumerable",
   "toLocaleString", "toString", "valueOf", "__proto__", "__defineGetter__",
   "__defineSetter__", "__lookupGetter__", "__lookupSetter__"]

/-- Result of a JavaScript property access `obj[key]`: an own property's
value, a truthy value inherited from `Object.prototype`, or `undefined`
(the only falsy outcome). -/
inductive JsProp (β : Type) where
  | own (v : β)
  | inherited
  | undef
deriving DecidableEq

/-- JavaScript property access on an object literal whose own properties
are given by `own`: an own property shadows the prototype; otherwise an
`Object.prototype` name yields the truthy inherited member, and any other
key yields `undefined`. -/
def jsGet {β : Type} (own : Option β) (key : String) : JsProp β :=
  match own with
  | some v => JsProp.own v
  | none => if key ∈ protoKeys then JsProp.inherited else JsProp.undef

/-- The `move` handler with the client-keyed lookups `rooms[roomId]` and
`deltas[dir]` given their full prototype-chain semantics.  The three
`Except.error` branches are the uncaught `TypeError`s of the source:
* `rooms[roomId]` inherited (e.g. `roomId = "toString"`): `r` is a truthy
  function, the `!r` guard passes, and `r.players[socket.id]` throws
  because `r.players` is `undefined`;
* `r.players[socket.id]` inherited: the `!player` guard passes,
  `player.x + d[0]` is `NaN`, every bound comparison with `NaN` is false,
  and `r.maze.grid[ny][nx]` throws because `grid[NaN]` is `undefined`;
* `deltas[dir]` inherited (e.g. `dir = "toString"`): `d` is a truthy
  function, the `!d` guard passes, `d[0]` is `undefined`, the candidate is
  `NaN`, and `r.maze.grid[ny][nx]` throws likewise.
On every other input this agrees with `moveHandler`. -/
def moveHandlerJs (st : ServerSt) (sid rid dir : String) :
    Except String (ServerSt × List Ev) :=
  match jsGet (alookup rid st.rooms) rid with
  | JsProp.undef => Except.ok (st, [])
  | JsProp.inherited => Except.error "TypeError"
  | JsProp.own r =>
    match jsGet (alookup sid r.players) sid with
    | JsProp.undef => Except.ok (st, [])
    | JsProp.inherited => Except.error "TypeError"
    | JsProp.own pl =>
      match jsGet (deltas dir) dir with
      | JsProp.undef => Except.ok (st, [])
      | JsProp.inherited => Except.error "TypeError"
      | JsProp.own d =>
        if pl.x + d.1 < 0 ∨ pl.y + d.2 < 0 ∨ r.maze.width ≤ pl.x + d.1 ∨
            r.maze.height ≤ pl.y + d.2 then Except.ok (st, [])
        else if (pl.x + d.1, pl.y + d.2) ∉ r.maze.carved then Except.ok (st, [])
        else
          if pl.x + d.1 = pl.exitX ∧ pl.y + d.2 = pl.exitY then
            Except.ok
              ({ st with
                  rooms := setEntry rid
                    ⟨r.maze, setEntry sid
                      ⟨pl.x + d.1, pl.y + d.2, pl.color, pl.exitX, pl.exitY⟩
                      r.players⟩ st.rooms
                  timers := st.timers ++ [(4500, rid)] },
               [Ev.stateB rid
                  (setEntry sid ⟨pl.x + d.1, pl.y + d.2, pl.color, pl.exitX, pl.exitY⟩
                    r.players),
                Ev.gameOver rid sid pl.color,
                Ev.revealM rid r.maze.carved])
          else
            Except.ok
              ({ st with
                  rooms := setEntry rid
                    ⟨r.maze, setEntry sid
                      ⟨pl.x + d.1, pl.y + d.2, pl.color, pl.exitX, pl.exitY⟩
                      r.players⟩ st.rooms },
               [Ev.stateB rid
                  (setEntry sid ⟨pl.x + d.1, pl.y + d.2, pl.color, pl.exitX, pl.exitY⟩
                    r.players)])

/-- Removal of a room from the registry (`delete rooms[roomId]`), the body
of both the delayed post-win teardown and the disconnect teardown. -/
def destroyRoom (st : ServerSt) (rid : String) : ServerSt :=
  { st with rooms := st.rooms.filter fun p => decide (p.1 ≠ rid) }

/-- The `disconnect` handler: clear the pending slot if the leaver was
pending; notify and immediately delete every room containing the leaver. -/
def disconnectH (st : ServerSt) (sid : String) : ServerSt × List Ev :=
  ({ st with
      waiting := if st.waiting = some sid then none else st.waiting
      rooms := st.rooms.filter fun p => decide (alookup sid p.2.players = none) },
   (st.rooms.filter fun p => decide (¬ alookup sid p.2.players = none)).map
     fun p => Ev.oppDisc p.1)

/-- A small concrete maze for concrete executions: a 3-tile corridor. -/
def exMaze : Maze := ⟨{(1, 1), (2, 1), (3, 1)}, 5, 3⟩

/-- Concrete player `a`: at `(1,1)`, goal `(2,1)` (one step right). -/
def exPlA : PState := ⟨1, 1, "#34ff72", 2, 1⟩

/-- Concrete player `b`: at `(3,1)`, goal `(1,1)`. -/
def exPlB : PState := ⟨3, 1, "#ff4d9e", 1, 1⟩

/-- Concrete room holding the two players above. -/
def exRoom : Room := ⟨exMaze, [("a", exPlA), ("b", exPlB)]⟩

/-- Concrete server state holding the room above under id `r`. -/
def exSt : ServerSt := ⟨none, [("r", exRoom)], [], 0⟩

theorem mem_cellsF {n : ℤ} {c : Tile} :
    c ∈ cellsF n ↔ 0 ≤ c.1 ∧ c.1 < n ∧ 0 ≤ c.2 ∧ c.2 < n := by
  simp only [cellsF, Finset.mem_product, Finset.mem_Icc]
  omega

theorem cellsF_card (m : ℕ) : (cellsF (m : ℤ)).card = m * m := by
  simp only [cellsF, Finset.card_product, Int.card_Icc]
  simp

theorem tileAdj_symm {u v : Tile} (h : tileAdj u v) : tileAdj v u := by
  unfold tileAdj at h ⊢; omega

theorem Reach.mono {s s2 : Finset Tile} (hs : s ⊆ s2) {u v : Tile} (h : Reach s u v) :
    Reach s2 u v :=
  Relation.ReflTransGen.mono (fun _ _ hab => ⟨hs hab.1, hs hab.2.1, hab.2.2⟩) h

theorem Reach.symm {s : Finset Tile} {u v : Tile} (h : Reach s u v) : Reach s v u := by
  refine Relation.ReflTransGen.symmetric ?_ h
  intro a b hab
  exact ⟨hab.2.1, hab.1, tileAdj_symm hab.2.2⟩

theorem carve_zero (rng : ℕ → ℕ) (n : ℤ) (c : Tile) (st : CarveSt) :
    carve rng n 0 c st = st := rfl

theorem carve_succ (rng : ℕ → ℕ) (n : ℤ) (fuel : ℕ) (c : Tile) (st : CarveSt) :
    carve rng n (fuel + 1) c st =
      (shuffleDirs rng st.ctr).1.foldl (carveStep rng n fuel c)
        ⟨insert (cellTile c) st.carved, insert c st.visited, (shuffleDirs rng st.ctr).2⟩ := by
  rfl

/-! ## Shuffle and tile-geometry lemmas -/

theorem shuffleDirs_fst (rng : ℕ → ℕ) (t : ℕ) :
    (shuffleDirs rng t).1 =
      listSwap (listSwap (listSwap dirs0 3 (rng t % 4)) 2 (rng (t + 1) % 3)) 1
        (rng (t + 2) % 2) := rfl

theorem shuffleDirs_snd (rng : ℕ → ℕ) (t : ℕ) : (shuffleDirs rng t).2 = t + 3 := rfl

theorem shuffleDirs_perm (rng : ℕ → ℕ) (t : ℕ) : ((shuffleDirs rng t).1).Perm dirs0 := by
  rw [shuffleDirs_fst]
  have h3 : rng t % 4 < 4 := Nat.mod_lt _ (by norm_num)
  have h2 : rng (t + 1) % 3 < 3 := Nat.mod_lt _ (by norm_num)
  have h1 : rng (t + 2) % 2 < 2 := Nat.mod_lt _ (by norm_num)
  generalize rng t % 4 = j3 at h3
  generalize rng (t + 1) % 3 = j2 at h2
  generalize rng (t + 2) % 2 = j1 at h1
  interval_cases j3 <;> interval_cases j2 <;> interval_cases j1 <;> decide

theorem cellTile_inj {a c : Tile} (h : cellTile a = cellTile c) : a = c := by
  simp only [cellTile, Prod.ext_iff] at h ⊢
  omega

theorem bothOdd_cellTile (c : Tile) : bothOdd (cellTile c) := by
  simp only [bothOdd, cellTile]
  omega

theorem not_isPassage_cellTile (c : Tile) : ¬ isPassage (cellTile c) := by
  simp only [isPassage, cellTile]
  omega

theorem isPassage_wallT {c d : Tile} (hd : d ∈ dirs0) : isPassage (wallT c d) := by
  simp only [dirs0, List.mem_cons, List.not_mem_nil, or_false] at hd
  rcases hd with h | h | h | h <;> subst h <;> simp [isPassage, wallT] <;> omega

theorem not_bothOdd_wallT {c d : Tile} (hd : d ∈ dirs0) : ¬ bothOdd (wallT c d) := by
  simp only [dirs0, List.mem_cons, List.not_mem_nil, or_false] at hd
  rcases hd with h | h | h | h <;> subst h <;> simp [bothOdd, wallT] <;> omega

theorem wallT_inj {a d c e : Tile} (hd : d ∈ dirs0) (he : e ∈ dirs0)
    (h : wallT a d = wallT c e) :
    (a = c ∧ d = e) ∨ (a = (c.1 + e.1, c.2 + e.2) ∧ (a.1 + d.1, a.2 + d.2) = c) := by
  simp only [dirs0, List.mem_cons, List.not_mem_nil, or_false] at hd he
  rcases hd with h1 | h1 | h1 | h1 <;> rcases he with h2 | h2 | h2 | h2 <;> subst h1 <;>
    subst h2 <;> simp [wallT, Prod.ext_iff] at h ⊢ <;> omega

theorem tileAdj_cellTile_wallT {c d : Tile} (hd : d ∈ dirs0) :
    tileAdj (cellTile c) (wallT c d) := by
  simp only [dirs0, List.mem_cons, List.not_mem_nil, or_false] at hd
  rcases hd with h | h | h | h <;> subst h <;> simp [tileAdj, cellTile, wallT]

theorem tileAdj_wallT_cellTile {c d : Tile} (hd : d ∈ dirs0) :
    tileAdj (wallT c d) (cellTile (c.1 + d.1, c.2 + d.2)) := by
  simp only [dirs0, List.mem_cons, List.not_mem_nil, or_false] at hd
  rcases hd with h | h | h | h <;> subst h <;> simp [tileAdj, cellTile, wallT] <;> omega

theorem inTB_cellTile {n : ℤ} {c : Tile} (hc : c ∈ cellsF n) : inTB n (cellTile c) := by
  rw [mem_cellsF] at hc
  simp only [inTB, cellTile]
  omega

theorem inTB_wallT {n : ℤ} {c d : Tile} (hd : d ∈ dirs0) (hc : c ∈ cellsF n)
    (hnc : (c.1 + d.1, c.2 + d.2) ∈ cellsF n) : inTB n (wallT c d) := by
  rw [mem_cellsF] at hc hnc
  simp only [dirs0, List.mem_cons, List.not_mem_nil, or_false] at hd
  rcases hd with h | h | h | h <;> subst h <;> simp [inTB, wallT] <;>
    simp only [Prod.fst, Prod.snd] at hnc <;> omega

theorem mem_passages {t : Tile} {s : Finset Tile} :
    t ∈ passages s ↔ t ∈ s ∧ isPassage t := Finset.mem_filter

theorem passages_insert_cell (c : Tile) (s : Finset Tile) :
    passages (insert (cellTile c) s) = passages s := by
  simp [passages, Finset.filter_insert, not_isPassage_cellTile c]

theorem passages_insert_wall {d : Tile} (hd : d ∈ dirs0) (c : Tile) (s : Finset Tile) :
    passages (insert (wallT c d) s) = insert (wallT c d) (passages s) := by
  simp [passages, Finset.filter_insert, isPassage_wallT hd]

/-- A wall tile towards an unvisited neighbor cell has not been carved yet. -/
theorem wall_fresh {n : ℤ} {carved visited : Finset Tile} (inv : StInv n carved visited)
    {c d : Tile} (hd : d ∈ dirs0) (hnc : (c.1 + d.1, c.2 + d.2) ∉ visited) :
    wallT c d ∉ carved := by
  intro hw
  obtain ⟨a, e, he, heq, ha, hae⟩ := inv.hpass _ hw (isPassage_wallT hd)
  rcases wallT_inj hd he heq with ⟨h1, h2⟩ | ⟨h1, h2⟩
  · subst h1; subst h2; exact hnc hae
  · rw [← h2] at ha; exact hnc ha

theorem carveStep_pos (rng : ℕ → ℕ) (n : ℤ) (fuel : ℕ) (c : Tile) (st : CarveSt) (d : Tile)
    (hg : 0 ≤ c.1 + d.1 ∧ c.1 + d.1 < n ∧ 0 ≤ c.2 + d.2 ∧ c.2 + d.2 < n ∧
      (c.1 + d.1, c.2 + d.2) ∉ st.visited) :
    carveStep rng n fuel c st d =
      carve rng n fuel (c.1 + d.1, c.2 + d.2)
        ⟨insert (cellTile (c.1 + d.1, c.2 + d.2)) (insert (wallT c d) st.carved),
          st.visited, st.ctr⟩ := by
  simp only [carveStep]
  rw [if_pos hg]

theorem carveStep_neg (rng : ℕ → ℕ) (n : ℤ) (fuel : ℕ) (c : Tile) (st : CarveSt) (d : Tile)
    (hg : ¬(0 ≤ c.1 + d.1 ∧ c.1 + d.1 < n ∧ 0 ≤ c.2 + d.2 ∧ c.2 + d.2 < n ∧
      (c.1 + d.1, c.2 + d.2) ∉ st.visited)) :
    carveStep rng n fuel c st d = st := by
  simp only [carveStep]
  rw [if_neg hg]

/-- Specification of the direction loop of `carve`, given the specification
of `carve` itself at the same fuel. -/
theorem loop_spec (rng : ℕ → ℕ) (n : ℤ) (fuel : ℕ)
    (IH : ∀ c st, CarvePre n fuel c st → CarvePost n c st (carve rng n fuel c st)) :
    ∀ (ds : List Tile) (c : Tile) (st : CarveSt), (∀ d ∈ ds, d ∈ dirs0) →
      LoopPre n fuel c st →
      LoopPost n c ds st (ds.foldl (carveStep rng n fuel c) st) := by
  intro ds
  induction ds with
  | nil =>
    intro c st _ pre
    exact
      { hcm := Finset.Subset.refl _
        hvm := Finset.Subset.refl _
        hcount := rfl
        hinv := pre.hinv
        hds := by intro d hd; exact absurd hd (List.not_mem_nil d)
        hclose := by intro a ha hna; exact absurd ha hna }
  | cons d ds ih =>
    intro c st hds pre
    have hd : d ∈ dirs0 := hds d (List.mem_cons_self d ds)
    have hds2 : ∀ e ∈ ds, e ∈ dirs0 := fun e he => hds e (List.mem_cons_of_mem d he)
    rw [List.foldl_cons]
    by_cases hg : 0 ≤ c.1 + d.1 ∧ c.1 + d.1 < n ∧ 0 ≤ c.2 + d.2 ∧ c.2 + d.2 < n ∧
        (c.1 + d.1, c.2 + d.2) ∉ st.visited
    · -- the neighbor is an in-bounds unvisited cell: carve it recursively
      have hncC : (c.1 + d.1, c.2 + d.2) ∈ cellsF n :=
        mem_cellsF.mpr ⟨hg.1, hg.2.1, hg.2.2.1, hg.2.2.2.1⟩
      have hnv : (c.1 + d.1, c.2 + d.2) ∉ st.visited := hg.2.2.2.2
      have hwfresh : wallT c d ∉ st.carved := wall_fresh pre.hinv hd hnv
      rw [carveStep_pos rng n fuel c st d hg]
      have hsub1 : st.carved ⊆
          insert (cellTile (c.1 + d.1, c.2 + d.2)) (insert (wallT c d) st.carved) :=
        (Finset.subset_insert _ _).trans (Finset.subset_insert _ _)
      have hctS : cellTile c ∈
          insert (cellTile (c.1 + d.1, c.2 + d.2)) (insert (wallT c d) st.carved) :=
        hsub1 pre.hct
      have hwS : wallT c d ∈
          insert (cellTile (c.1 + d.1, c.2 + d.2)) (insert (wallT c d) st.carved) :=
        Finset.mem_insert_of_mem (Finset.mem_insert_self _ _)
      have hreach_w : Reach
          (insert (cellTile (c.1 + d.1, c.2 + d.2)) (insert (wallT c d) st.carved))
          (1, 1) (wallT c d) :=
        Relation.ReflTransGen.tail ((pre.hinv.hreach _ pre.hct).mono hsub1)
          ⟨hctS, hwS, tileAdj_cellTile_wallT hd⟩
      have hreach_nc : Reach
          (insert (cellTile (c.1 + d.1, c.2 + d.2)) (insert (wallT c d) st.carved))
          (1, 1) (cellTile (c.1 + d.1, c.2 + d.2)) :=
        Relation.ReflTransGen.tail hreach_w
          ⟨hwS, Finset.mem_insert_self _ _, tileAdj_wallT_cellTile hd⟩
      have pre1 : CarvePre n fuel (c.1 + d.1, c.2 + d.2)
          ⟨insert (cellTile (c.1 + d.1, c.2 + d.2)) (insert (wallT c d) st.carved),
            st.visited, st.ctr⟩ := by
        refine
          { hc := hncC
            hnv := hnv
            hfuel := pre.hfuel
            hinv := ?_ }
        have hdup : insert (cellTile (c.1 + d.1, c.2 + d.2))
            (insert (cellTile (c.1 + d.1, c.2 + d.2)) (insert (wallT c d) st.carved)) =
            insert (cellTile (c.1 + d.1, c.2 + d.2)) (insert (wallT c d) st.carved) :=
          Finset.insert_idem _ _
        rw [hdup]
        refine
          { hvs := Finset.insert_subset_iff.mpr ⟨hncC, pre.hinv.hvs⟩
            hpass := ?_
            hcell := ?_
            hrev := ?_
            hclass := ?_
            hbnd := ?_
            hreach := ?_ }
        · intro t ht hp
          rcases Finset.mem_insert.mp ht with h | h
          · exact absurd hp (h ▸ not_isPassage_cellTile _)
          rcases Finset.mem_insert.mp h with h2 | h2
          · subst h2
            exact ⟨c, d, hd, rfl, Finset.mem_insert_of_mem pre.hcv,
              Finset.mem_insert_self _ _⟩
          · obtain ⟨a, e, he, heq, ha, hae⟩ := pre.hinv.hpass t h2 hp
            exact ⟨a, e, he, heq, Finset.mem_insert_of_mem ha,
              Finset.mem_insert_of_mem hae⟩
        · intro t ht hb
          rcases Finset.mem_insert.mp ht with h | h
          · exact ⟨(c.1 + d.1, c.2 + d.2), Finset.mem_insert_self _ _, h⟩
          rcases Finset.mem_insert.mp h with h2 | h2
          · exact absurd hb (h2 ▸ not_bothOdd_wallT hd)
          · obtain ⟨a, ha, heq⟩ := pre.hinv.hcell t h2 hb
            exact ⟨a, Finset.mem_insert_of_mem ha, heq⟩
        · intro a ha
          rcases Finset.mem_insert.mp ha with h | h
          · subst h; exact Finset.mem_insert_self _ _
          · exact hsub1 (pre.hinv.hrev a h)
        · intro t ht
          rcases Finset.mem_insert.mp ht with h | h
          · subst h; exact Or.inr (bothOdd_cellTile _)
          rcases Finset.mem_insert.mp h with h2 | h2
          · subst h2; exact Or.inl (isPassage_wallT hd)
          · exact pre.hinv.hclass t h2
        · intro t ht
          rcases Finset.mem_insert.mp ht with h | h
          · subst h; exact inTB_cellTile hncC
          rcases Finset.mem_insert.mp h with h2 | h2
          · subst h2; exact inTB_wallT hd pre.hc hncC
          · exact pre.hinv.hbnd t h2
        · intro t ht
          rcases Finset.mem_insert.mp ht with h | h
          · subst h; exact hreach_nc
          rcases Finset.mem_insert.mp h with h2 | h2
          · subst h2; exact hreach_w
          · exact (pre.hinv.hreach t h2).mono hsub1
      have post1 := IH _ _ pre1
      have hvsub : st.visited ⊆
          (carve rng n fuel (c.1 + d.1, c.2 + d.2)
            ⟨insert (cellTile (c.1 + d.1, c.2 + d.2)) (insert (wallT c d) st.carved),
              st.visited, st.ctr⟩).visited :=
        (Finset.subset_insert _ _).trans post1.hvm
      have pre2 : LoopPre n fuel c
          (carve rng n fuel (c.1 + d.1, c.2 + d.2)
            ⟨insert (cellTile (c.1 + d.1, c.2 + d.2)) (insert (wallT c d) st.carved),
              st.visited, st.ctr⟩) :=
        { hc := pre.hc
          hcv := hvsub pre.hcv
          hct := post1.hcm hctS
          hfuel := le_trans
            (Finset.card_le_card (Finset.sdiff_subset_sdiff (Finset.Subset.refl _) hvsub))
            pre.hfuel
          hinv := post1.hinv }
      have post2 := ih c _ hds2 pre2
      have hcount1 : (passages (insert (cellTile (c.1 + d.1, c.2 + d.2))
          (insert (wallT c d) st.carved))).card = (passages st.carved).card + 1 := by
        rw [passages_insert_cell, passages_insert_wall hd]
        exact Finset.card_insert_of_not_mem fun hmem => hwfresh (mem_passages.mp hmem).1
      refine
        { hcm := (hsub1.trans post1.hcm).trans post2.hcm
          hvm := hvsub.trans post2.hvm
          hcount := ?_
          hinv := post2.hinv
          hds := ?_
          hclose := ?_ }
      · have h1 := post1.hcount
        have h2 := post2.hcount
        simp only at h1 h2
        omega
      · intro e he hecells
        rcases List.mem_cons.mp he with h | h
        · subst h
          exact post2.hvm (post1.hvm (Finset.mem_insert_self _ _))
        · exact post2.hds e h hecells
      · intro a ha hna d2 hd2 hcell2
        by_cases ha2 : a ∈ (carve rng n fuel (c.1 + d.1, c.2 + d.2)
            ⟨insert (cellTile (c.1 + d.1, c.2 + d.2)) (insert (wallT c d) st.carved),
              st.visited, st.ctr⟩).visited
        · exact post2.hvm (post1.hclose a ha2 hna d2 hd2 hcell2)
        · exact post2.hclose a ha ha2 d2 hd2 hcell2
    · -- rejected neighbor: the loop state is unchanged
      rw [carveStep_neg rng n fuel c st d hg]
      have post := ih c st hds2 pre
      refine
        { hcm := post.hcm
          hvm := post.hvm
          hcount := post.hcount
          hinv := post.hinv
          hds := ?_
          hclose := post.hclose }
      intro e he hecells
      rcases List.mem_cons.mp he with h | h
      · subst h
        rcases mem_cellsF.mp hecells with ⟨b1, b2, b3, b4⟩
        have hv : (c.1 + e.1, c.2 + e.2) ∈ st.visited := by
          by_contra hnv
          exact hg ⟨b1, b2, b3, b4, hnv⟩
        exact post.hvm hv
      · exact post.hds e h hecells

/-- Main specification of the carver: under its precondition, `carve`
establishes the structural invariant together with the passage count and the
neighbor-closure of the newly visited cells. -/
theorem carve_spec (rng : ℕ → ℕ) (n : ℤ) :
    ∀ (fuel : ℕ) (c : Tile) (st : CarveSt),
      CarvePre n fuel c st → CarvePost n c st (carve rng n fuel c st) := by
  intro fuel
  induction fuel with
  | zero =>
    intro c st pre
    exfalso
    have hmem : c ∈ cellsF n \ st.visited := Finset.mem_sdiff.mpr ⟨pre.hc, pre.hnv⟩
    have hpos : 0 < (cellsF n \ st.visited).card := Finset.card_pos.mpr ⟨c, hmem⟩
    have hfuel := pre.hfuel
    omega
  | succ fuel IH =>
    intro c st pre
    rw [carve_succ]
    have hperm := shuffleDirs_perm rng st.ctr
    have hdsub : ∀ d ∈ (shuffleDirs rng st.ctr).1, d ∈ dirs0 :=
      fun d hd => hperm.mem_iff.mp hd
    have hmemsd : c ∈ cellsF n \ st.visited := Finset.mem_sdiff.mpr ⟨pre.hc, pre.hnv⟩
    have pre1 : LoopPre n fuel c
        ⟨insert (cellTile c) st.carved, insert c st.visited, (shuffleDirs rng st.ctr).2⟩ :=
      { hc := pre.hc
        hcv := Finset.mem_insert_self _ _
        hct := Finset.mem_insert_self _ _
        hfuel := by
          have heq : cellsF n \ insert c st.visited = (cellsF n \ st.visited).erase c :=
            Finset.sdiff_insert _ _ _
          have hfuel := pre.hfuel
          have hpos : 0 < (cellsF n \ st.visited).card := Finset.card_pos.mpr ⟨c, hmemsd⟩
          simp only [heq, Finset.card_erase_of_mem hmemsd]
          omega
        hinv := pre.hinv }
    have post := loop_spec rng n fuel IH (shuffleDirs rng st.ctr).1 c _ hdsub pre1
    refine
      { hcm := (Finset.subset_insert _ _).trans post.hcm
        hvm := post.hvm
        hcount := ?_
        hinv := post.hinv
        hclose := ?_ }
    · have h1 := post.hcount
      simp only [passages_insert_cell, Finset.card_insert_of_not_mem pre.hnv] at h1
      omega
    · intro a ha hna d hd hcells
      by_cases hac : a = c
      · subst hac
        exact post.hds d (hperm.mem_iff.mpr hd) hcells
      · have hna1 : a ∉ (insert c st.visited : Finset Tile) := by
          intro hmem
          rcases Finset.mem_insert.mp hmem with h | h
          · exact hac h
          · exact hna h
        exact post.hclose a ha hna1 d hd hcells

/-- A set of logical cells that contains `(0, 0)` and is closed under
in-grid neighbors contains the whole logical grid. -/
theorem closed_full {n : ℤ} {S : Finset Tile} (h0 : (0, 0) ∈ S)
    (hcl : ∀ a ∈ S, ∀ d ∈ dirs0,
      (a.1 + d.1, a.2 + d.2) ∈ cellsF n → (a.1 + d.1, a.2 + d.2) ∈ S) :
    ∀ c ∈ cellsF n, c ∈ S := by
  suffices H : ∀ k : ℕ, ∀ c ∈ cellsF n, (c.1 + c.2).toNat = k → c ∈ S by
    intro c hc
    exact H (c.1 + c.2).toNat c hc rfl
  intro k
  induction k using Nat.strong_induction_on with
  | _ k ih =>
    intro c hc hk
    obtain ⟨b1, b2, b3, b4⟩ := mem_cellsF.mp hc
    by_cases hx : 0 < c.1
    · have hb : (c.1 - 1, c.2) ∈ cellsF n := mem_cellsF.mpr (by constructor <;> omega)
      have hbS : (c.1 - 1, c.2) ∈ S := by
        refine ih ((c.1 - 1) + c.2).toNat (by omega) _ hb rfl
      have := hcl _ hbS (1, 0) (by simp [dirs0]) (by simpa using hc)
      simpa using this
    · by_cases hy : 0 < c.2
      · have hb : (c.1, c.2 - 1) ∈ cellsF n := mem_cellsF.mpr (by constructor <;> omega)
        have hbS : (c.1, c.2 - 1) ∈ S := by
          refine ih (c.1 + (c.2 - 1)).toNat (by omega) _ hb rfl
        have := hcl _ hbS (0, 1) (by simp [dirs0]) (by simpa using hc)
        simpa using this
      · have : c = (0, 0) := by
          rcases c with ⟨cx, cy⟩
          simp only [Prod.mk.injEq]
          constructor <;> omega
        rw [this]
        exact h0

theorem cellTile_zero : cellTile (0, 0) = ((1 : ℤ), (1 : ℤ)) := by
  simp [cellTile]

/-- The top-level call of the carver satisfies its postcondition. -/
theorem generateMaze_carve_post (rng : ℕ → ℕ) (m t : ℕ) (hm : 1 ≤ m) :
    CarvePost (m : ℤ) (0, 0) ⟨∅, ∅, t⟩
      (carve rng (m : ℤ) (m * m) (0, 0) ⟨∅, ∅, t⟩) := by
  apply carve_spec
  have hm2 : (1 : ℤ) ≤ (m : ℤ) := by exact_mod_cast hm
  have hc : ((0 : ℤ), (0 : ℤ)) ∈ cellsF (m : ℤ) := by
    simp [mem_cellsF]
    omega
  refine
    { hc := hc
      hnv := Finset.not_mem_empty _
      hfuel := ?_
      hinv := ?_ }
  · rw [Finset.sdiff_empty, cellsF_card]
  · refine
      { hvs := ?_
        hpass := ?_
        hcell := ?_
        hrev := ?_
        hclass := ?_
        hbnd := ?_
        hreach := ?_ }
    · intro a ha
      simp only [Finset.mem_insert, Finset.not_mem_empty, or_false] at ha
      subst ha
      exact hc
    · intro u hu hp
      simp only [Finset.mem_insert, Finset.not_mem_empty, or_false] at hu
      exact absurd hp (hu ▸ not_isPassage_cellTile _)
    · intro u hu hb
      simp only [Finset.mem_insert, Finset.not_mem_empty, or_false] at hu
      exact ⟨(0, 0), Finset.mem_insert_self _ _, hu⟩
    · intro a ha
      simp only [Finset.mem_insert, Finset.not_mem_empty, or_false] at ha
      subst ha
      exact Finset.mem_insert_self _ _
    · intro u hu
      simp only [Finset.mem_insert, Finset.not_mem_empty, or_false] at hu
      exact Or.inr (hu ▸ bothOdd_cellTile _)
    · intro u hu
      simp only [Finset.mem_insert, Finset.not_mem_empty, or_false] at hu
      exact hu ▸ inTB_cellTile hc
    · intro u hu
      simp only [Finset.mem_insert, Finset.not_mem_empty, or_false] at hu
      subst hu
      rw [cellTile_zero]
      exact Relation.ReflTransGen.refl

theorem generateMaze_carved_eq (rng : ℕ → ℕ) (m t : ℕ) :
    (generateMaze rng m t).1.carved =
      (carve rng (m : ℤ) (m * m) (0, 0) ⟨∅, ∅, t⟩).carved := rfl

/-- All invariant facts about a generated maze, bundled. -/
theorem generateMaze_facts (rng : ℕ → ℕ) (m t : ℕ) (hm : 1 ≤ m) :
    ((1 : ℤ), (1 : ℤ)) ∈ (generateMaze rng m t).1.carved ∧
    (∀ p ∈ (generateMaze rng m t).1.carved, inTB (m : ℤ) p) ∧
    (∀ p ∈ (generateMaze rng m t).1.carved,
      Reach (generateMaze rng m t).1.carved (1, 1) p) ∧
    ((generateMaze rng m t).1.carved.filter bothOdd).card = m * m ∧
    (passages (generateMaze rng m t).1.carved).card = m * m - 1 := by
  have post := generateMaze_carve_post rng m t hm
  rw [generateMaze_carved_eq]
  have h0 : ((0 : ℤ), (0 : ℤ)) ∈ (carve rng (m : ℤ) (m * m) (0, 0) ⟨∅, ∅, t⟩).visited :=
    post.hvm (Finset.mem_insert_self _ _)
  have hful : (carve rng (m : ℤ) (m * m) (0, 0) ⟨∅, ∅, t⟩).visited = cellsF (m : ℤ) := by
    refine Finset.Subset.antisymm post.hinv.hvs fun c hc => ?_
    exact closed_full h0
      (fun a ha => post.hclose a ha (Finset.not_mem_empty a)) c hc
  have hvcard : (carve rng (m : ℤ) (m * m) (0, 0) ⟨∅, ∅, t⟩).visited.card = m * m := by
    rw [hful, cellsF_card]
  have h11 : ((1 : ℤ), (1 : ℤ)) ∈ (carve rng (m : ℤ) (m * m) (0, 0) ⟨∅, ∅, t⟩).carved := by
    have := post.hinv.hrev (0, 0) h0
    rwa [cellTile_zero] at this
  refine ⟨h11, post.hinv.hbnd, post.hinv.hreach, ?_, ?_⟩
  · have himg : (carve rng (m : ℤ) (m * m) (0, 0) ⟨∅, ∅, t⟩).carved.filter bothOdd =
        (carve rng (m : ℤ) (m * m) (0, 0) ⟨∅, ∅, t⟩).visited.image cellTile := by
      ext u
      simp only [Finset.mem_filter, Finset.mem_image]
      constructor
      · rintro ⟨hu, hb⟩
        obtain ⟨a, ha, heq⟩ := post.hinv.hcell u hu hb
        exact ⟨a, ha, heq.symm⟩
      · rintro ⟨a, ha, rfl⟩
        exact ⟨post.hinv.hrev a ha, bothOdd_cellTile a⟩
    rw [himg, Finset.card_image_of_injective _ fun a b h => cellTile_inj h, hvcard]
  · have hcount := post.hcount
    simp only [Finset.card_empty] at hcount
    have hp0 : (passages (∅ : Finset Tile)).card = 0 := by
      simp [passages]
    rw [hp0] at hcount
    omega

/-- **C1.** For every `n ≥ 1` (and every random stream and stream position),
`generateMaze(n)` returns a grid of size `(2n+1) × (2n+1)` (its `width` and
`height` fields are `2n+1` and every empty tile lies inside those bounds),
whose empty tiles are nonempty and form exactly one connected component (any
two empty tiles are joined by a path of adjacent empty tiles), with exactly
`n²` carved logical-cell tiles and exactly `n²−1` connecting passage tiles
between them: a perfect maze, with no cycles and no isolated cells. -/
theorem generateMaze_perfect_maze (rng : ℕ → ℕ) (m t : ℕ) (hm : 1 ≤ m) :
    (generateMaze rng m t).1.width = 2 * (m : ℤ) + 1 ∧
    (generateMaze rng m t).1.height = 2 * (m : ℤ) + 1 ∧
    (∀ p ∈ (generateMaze rng m t).1.carved, inTB (m : ℤ) p) ∧
    ((1 : ℤ), (1 : ℤ)) ∈ (generateMaze rng m t).1.carved ∧
    (∀ a ∈ (generateMaze rng m t).1.carved, ∀ b ∈ (generateMaze rng m t).1.carved,
      Reach (generateMaze rng m t).1.carved a b) ∧
    ((generateMaze rng m t).1.carved.filter bothOdd).card = m * m ∧
    (passages (generateMaze rng m t).1.carved).card = m * m - 1 := by
  obtain ⟨h11, hbnd, hreach, hcells, hpass⟩ := generateMaze_facts rng m t hm
  refine ⟨rfl, rfl, hbnd, h11, ?_, hcells, hpass⟩
  intro a ha b hb
  exact Relation.ReflTransGen.trans (hreach a ha).symm (hreach b hb)

theorem generateMaze_perfect_maze_witness :
    1 ≤ 1 ∧
    ((generateMaze (fun _ => 0) 1 0).1.width = 2 * (1 : ℤ) + 1 ∧
    (generateMaze (fun _ => 0) 1 0).1.height = 2 * (1 : ℤ) + 1 ∧
    (∀ p ∈ (generateMaze (fun _ => 0) 1 0).1.carved, inTB (1 : ℤ) p) ∧
    ((1 : ℤ), (1 : ℤ)) ∈ (generateMaze (fun _ => 0) 1 0).1.carved ∧
    (∀ a ∈ (generateMaze (fun _ => 0) 1 0).1.carved,
      ∀ b ∈ (generateMaze (fun _ => 0) 1 0).1.carved,
        Reach (generateMaze (fun _ => 0) 1 0).1.carved a b) ∧
    ((generateMaze (fun _ => 0) 1 0).1.carved.filter bothOdd).card = 1 * 1 ∧
    (passages (generateMaze (fun _ => 0) 1 0).1.carved).card = 1 * 1 - 1) :=
  ⟨le_refl 1, generateMaze_perfect_maze (fun _ => 0) 1 0 (le_refl 1)⟩

/-- **C10.** For every `n ≥ 1` and every maze returned by `generateMaze(n)`,
the tile at coordinate `(1, 1)` is empty (the starting logical cell `(0, 0)`
is always carved), and `(1, 1)` lies inside the grid bounds, so the absolute
fallback value `(1, 1)` of `pickRandomCell` is an empty in-bounds tile on any
generated maze. -/
theorem generateMaze_start_tile_empty (rng : ℕ → ℕ) (m t : ℕ) (hm : 1 ≤ m) :
    ((1 : ℤ), (1 : ℤ)) ∈ (generateMaze rng m t).1.carved ∧
    inTB (m : ℤ) (1, 1) := by
  obtain ⟨h11, hbnd, -, -, -⟩ := generateMaze_facts rng m t hm
  exact ⟨h11, hbnd _ h11⟩

theorem generateMaze_start_tile_empty_witness :
    1 ≤ 1 ∧
    (((1 : ℤ), (1 : ℤ)) ∈ (generateMaze (fun _ => 0) 1 0).1.carved ∧
      inTB (1 : ℤ) (1, 1)) :=
  ⟨le_refl 1, generateMaze_start_tile_empty (fun _ => 0) 1 0 (le_refl 1)⟩

theorem mem_coordList {w h : ℕ} {p : Tile} :
    p ∈ coordList w h ↔ 0 ≤ p.1 ∧ p.1 < (w : ℤ) ∧ 0 ≤ p.2 ∧ p.2 < (h : ℤ) := by
  constructor
  · intro hp
    obtain ⟨y, hy, hin⟩ := List.mem_bind.mp hp
    obtain ⟨x, hx, heq⟩ := List.mem_map.mp hin
    rw [List.mem_range] at hy hx
    subst heq
    show 0 ≤ (x : ℤ) ∧ (x : ℤ) < (w : ℤ) ∧ 0 ≤ (y : ℤ) ∧ (y : ℤ) < (h : ℤ)
    omega
  · intro hb
    obtain ⟨h1, h2, h3, h4⟩ := hb
    refine List.mem_bind.mpr ⟨p.2.toNat, ?_, List.mem_map.mpr ⟨p.1.toNat, ?_, ?_⟩⟩
    · rw [List.mem_range]; omega
    · rw [List.mem_range]; omega
    · rcases p with ⟨px, py⟩
      rw [Prod.mk.injEq]
      constructor <;> simp <;> omega

theorem pickLoop_some {rng : ℕ → ℕ} {carved : Finset Tile} {w h : ℕ}
    {test : ℤ → ℤ → Bool} :
    ∀ {i t : ℕ} {p : Tile} {t2 : ℕ},
      pickLoop rng carved w h test i t = (some p, t2) → p ∈ carved := by
  intro i
  induction i with
  | zero => intro t p t2 hp; simp [pickLoop] at hp
  | succ i ih =>
    intro t p t2 hp
    rw [pickLoop] at hp
    split at hp
    · rename_i hcond
      simp only [Prod.mk.injEq, Option.some.injEq] at hp
      rw [← hp.1]
      exact hcond.1
    · exact ih hp

/-- **C9.** For every grid holding at least one empty tile (a grid's empty
tiles all lie within its `w × h` bounds) and every region predicate,
`pickRandomCell` returns an empty (non-wall) tile lying within the grid
bounds: the three-tier fallback (random draws, region-restricted scan,
any-empty scan) never falls through to a wall or out-of-bounds tile. -/
theorem pickRandomCell_valid (rng : ℕ → ℕ) (carved : Finset Tile) (w h : ℕ)
    (test : ℤ → ℤ → Bool) (attempts t : ℕ)
    (hbd : ∀ p ∈ carved, 0 ≤ p.1 ∧ p.1 < (w : ℤ) ∧ 0 ≤ p.2 ∧ p.2 < (h : ℤ))
    (hne : carved.Nonempty) :
    (pickRandomCell rng carved w h test attempts t).1 ∈ carved ∧
    0 ≤ (pickRandomCell rng carved w h test attempts t).1.1 ∧
    (pickRandomCell rng carved w h test attempts t).1.1 < (w : ℤ) ∧
    0 ≤ (pickRandomCell rng carved w h test attempts t).1.2 ∧
    (pickRandomCell rng carved w h test attempts t).1.2 < (h : ℤ) := by
  suffices hmem : (pickRandomCell rng carved w h test attempts t).1 ∈ carved by
    exact ⟨hmem, (hbd _ hmem).1, (hbd _ hmem).2.1, (hbd _ hmem).2.2.1, (hbd _ hmem).2.2.2⟩
  unfold pickRandomCell
  rcases hpl : pickLoop rng carved w h test attempts t with ⟨o, t2⟩
  rcases o with - | p
  · rcases hf1 : (coordList w h).find? (fun p => decide (p ∈ carved) && test p.1 p.2)
      with - | p
    · rcases hf2 : (coordList w h).find? (fun p => decide (p ∈ carved)) with - | p
      · exfalso
        obtain ⟨p0, hp0⟩ := hne
        have hp0mem : p0 ∈ coordList w h := mem_coordList.mpr (hbd p0 hp0)
        have := List.find?_eq_none.mp hf2 p0 hp0mem
        simp [hp0] at this
      · simp only [hf1, hf2]
        have := List.find?_some hf2
        simpa using this
    · simp only [hf1]
      have := List.find?_some hf1
      simp only [Bool.and_eq_true, decide_eq_true_eq] at this
      exact this.1
  · exact pickLoop_some hpl

theorem pickRandomCell_valid_witness :
    ((∀ p ∈ ({((1 : ℤ), (1 : ℤ))} : Finset Tile),
        0 ≤ p.1 ∧ p.1 < ((3 : ℕ) : ℤ) ∧ 0 ≤ p.2 ∧ p.2 < ((3 : ℕ) : ℤ)) ∧
      ({((1 : ℤ), (1 : ℤ))} : Finset Tile).Nonempty) ∧
    ((pickRandomCell (fun _ => 0) {((1 : ℤ), (1 : ℤ))} 3 3 (fun _ _ => true) 2 0).1 ∈
        ({((1 : ℤ), (1 : ℤ))} : Finset Tile) ∧
      0 ≤ (pickRandomCell (fun _ => 0) {((1 : ℤ), (1 : ℤ))} 3 3 (fun _ _ => true) 2 0).1.1 ∧
      (pickRandomCell (fun _ => 0) {((1 : ℤ), (1 : ℤ))} 3 3
        (fun _ _ => true) 2 0).1.1 < ((3 : ℕ) : ℤ) ∧
      0 ≤ (pickRandomCell (fun _ => 0) {((1 : ℤ), (1 : ℤ))} 3 3 (fun _ _ => true) 2 0).1.2 ∧
      (pickRandomCell (fun _ => 0) {((1 : ℤ), (1 : ℤ))} 3 3
        (fun _ _ => true) 2 0).1.2 < ((3 : ℕ) : ℤ)) :=
  ⟨⟨by decide, ⟨(1, 1), by decide⟩⟩,
    pickRandomCell_valid (fun _ => 0) {((1 : ℤ), (1 : ℤ))} 3 3 (fun _ _ => true) 2 0
      (by decide) ⟨(1, 1), by decide⟩⟩

/-- Combined specification of the fallback fold: the result is an upper bound
for all empty tiles of the scanned list, and either the accumulator is
returned unchanged, or the result is an empty tile of the list, strictly
better than the accumulator and than every empty tile scanned before it. -/
theorem bestFold_spec (a : Tile) (carved : Finset Tile) :
    ∀ (l : List Tile) (b : Tile) (bD : ℤ),
      (bD ≤ (bestFold a carved l (b, bD)).2 ∧
        ∀ q ∈ l, q ∈ carved → sqDist a q ≤ (bestFold a carved l (b, bD)).2) ∧
      (bestFold a carved l (b, bD) = (b, bD) ∨
        ((bestFold a carved l (b, bD)).1 ∈ carved ∧
          (bestFold a carved l (b, bD)).2 = sqDist a (bestFold a carved l (b, bD)).1 ∧
          bD < (bestFold a carved l (b, bD)).2 ∧
          ∃ l1 l2, l = l1 ++ (bestFold a carved l (b, bD)).1 :: l2 ∧
            ∀ q ∈ l1, q ∈ carved → sqDist a q < (bestFold a carved l (b, bD)).2)) := by
  intro l
  induction l with
  | nil =>
    intro b bD
    refine ⟨⟨le_refl _, ?_⟩, Or.inl rfl⟩
    intro q hq
    exact absurd hq (List.not_mem_nil q)
  | cons p ps ih =>
    intro b bD
    by_cases hg : p ∈ carved ∧ ((b, bD) : Tile × ℤ).2 < sqDist a p
    · have hrw : bestFold a carved (p :: ps) (b, bD) =
          bestFold a carved ps (p, sqDist a p) := by
        rw [bestFold, if_pos hg]
      obtain ⟨⟨hub1, hub2⟩, hcase⟩ := ih p (sqDist a p)
      rw [hrw]
      refine ⟨⟨?_, ?_⟩, ?_⟩
      · exact le_trans (le_of_lt hg.2) hub1
      · intro q hq hqc
        rcases List.mem_cons.mp hq with h | h
        · subst h; exact hub1
        · exact hub2 q h hqc
      · rcases hcase with heq | ⟨hmem, hval, hlt, l1, l2, hsplit, hpre⟩
        · refine Or.inr ?_
          rw [heq]
          exact ⟨hg.1, rfl, hg.2, [], ps, rfl, fun q hq => absurd hq (List.not_mem_nil q)⟩
        · refine Or.inr ⟨hmem, hval, lt_trans hg.2 hlt, p :: l1, l2, ?_, ?_⟩
          · simp only [List.cons_append]
            exact congrArg (List.cons p) hsplit
          · intro q hq hqc
            rcases List.mem_cons.mp hq with h | h
            · subst h; exact hlt
            · exact hpre q h hqc
    · have hrw : bestFold a carved (p :: ps) (b, bD) = bestFold a carved ps (b, bD) := by
        rw [bestFold, if_neg hg]
      obtain ⟨⟨hub1, hub2⟩, hcase⟩ := ih b bD
      rw [hrw]
      refine ⟨⟨hub1, ?_⟩, ?_⟩
      · intro q hq hqc
        rcases List.mem_cons.mp hq with h | h
        · subst h
          have : sqDist a q ≤ bD := by
            by_contra hcon
            exact hg ⟨hqc, by push_neg at hcon; exact hcon⟩
          exact le_trans this hub1
        · exact hub2 q h hqc
      · rcases hcase with heq | ⟨hmem, hval, hlt, l1, l2, hsplit, hpre⟩
        · exact Or.inl heq
        · refine Or.inr ⟨hmem, hval, hlt, p :: l1, l2, ?_, ?_⟩
          · simp only [List.cons_append]
            exact congrArg (List.cons p) hsplit
          · intro q hq hqc
            rcases List.mem_cons.mp hq with h | h
            · subst h
              have : sqDist a q ≤ bD := by
                by_contra hcon
                exact hg ⟨hqc, by push_neg at hcon; exact hcon⟩
              exact lt_of_le_of_lt this hlt
            · exact hpre q h hqc

theorem sqDist_nonneg (a q : Tile) : 0 ≤ sqDist a q := by
  unfold sqDist
  positivity

/-- The fallback scan returns an empty tile at maximal distance from `a`,
and it is the first such tile in row-major scan order. -/
theorem bestScan_spec (a : Tile) (carved : Finset Tile) (W H : ℕ)
    (hbd : ∀ p ∈ carved, 0 ≤ p.1 ∧ p.1 < (W : ℤ) ∧ 0 ≤ p.2 ∧ p.2 < (H : ℤ))
    (hne : carved.Nonempty) :
    bestScan a carved W H ∈ carved ∧
    (∀ q ∈ carved, sqDist a q ≤ sqDist a (bestScan a carved W H)) ∧
    ∃ l1 l2, coordList W H = l1 ++ bestScan a carved W H :: l2 ∧
      ∀ q ∈ l1, q ∈ carved → sqDist a q < sqDist a (bestScan a carved W H) := by
  obtain ⟨⟨h1a, h1b⟩, hcase⟩ := bestFold_spec a carved (coordList W H) a (-1)
  rcases hcase with heq | ⟨hmem, hval, -, l1, l2, hsplit, hpre⟩
  · exfalso
    obtain ⟨p0, hp0⟩ := hne
    have hp0mem : p0 ∈ coordList W H := mem_coordList.mpr (hbd p0 hp0)
    have hle := h1b p0 hp0mem hp0
    rw [heq] at hle
    have := sqDist_nonneg a p0
    omega
  · refine ⟨hmem, ?_, l1, l2, hsplit, ?_⟩
    · intro q hq
      have := h1b q (mem_coordList.mpr (hbd q hq)) hq
      rw [hval] at this
      exact this
    · intro q hq hqc
      have := hpre q hq hqc
      rw [hval] at this
      exact this

/-- Case analysis of the final distance check: either the spawns are far
enough apart, or the second spawn is the scan result. -/
theorem finishSpawns_spec (carved : Finset Tile) (W H : ℕ)
    (hbd : ∀ p ∈ carved, 0 ≤ p.1 ∧ p.1 < (W : ℤ) ∧ 0 ≤ p.2 ∧ p.2 < (H : ℤ))
    (hne : carved.Nonempty) (r : Tile × Tile × ℕ) :
    ¬ closePair (finishSpawns carved W H r).1 (finishSpawns carved W H r).2.1
        (max (W : ℤ) (H : ℤ)) ∨
    ((finishSpawns carved W H r).2.1 ∈ carved ∧
      (∀ q ∈ carved, sqDist (finishSpawns carved W H r).1 q ≤
        sqDist (finishSpawns carved W H r).1 (finishSpawns carved W H r).2.1) ∧
      ∃ l1 l2, coordList W H = l1 ++ (finishSpawns carved W H r).2.1 :: l2 ∧
        ∀ q ∈ l1, q ∈ carved → sqDist (finishSpawns carved W H r).1 q <
          sqDist (finishSpawns carved W H r).1 (finishSpawns carved W H r).2.1) := by
  by_cases hcp : closePair r.1 r.2.1 (max (W : ℤ) (H : ℤ))
  · have hrw : finishSpawns carved W H r = (r.1, bestScan r.1 carved W H, r.2.2) := by
      rw [finishSpawns, if_pos hcp]
    rw [hrw]
    exact Or.inr (bestScan_spec r.1 carved W H hbd hne)
  · have hrw : finishSpawns carved W H r = r := by
      rw [finishSpawns, if_neg hcp]
    rw [hrw]
    exact Or.inl hcp

/-- **C4.** For every generated maze (any `n ≥ 1`, any random stream), the
spawn pair chosen by the `findMatch` placement logic either satisfies the
separation `distance ≥ 0.45 · max(W, H)` (stated on squared distances:
`¬closePair`), or — after the 200 retry attempts failed — the second spawn
is an empty tile at maximal Euclidean distance from the first, and it is
the first maximal tile in row-major scan order (every empty tile scanned
before it is strictly closer). -/
theorem spawns_separated_or_scan_maximal (rng : ℕ → ℕ) (m t : ℕ) (hm : 1 ≤ m) :
    ¬ closePair
        (placeSpawns rng (generateMaze rng m t).1.carved (2 * m + 1) (2 * m + 1)
          (generateMaze rng m t).2).1
        (placeSpawns rng (generateMaze rng m t).1.carved (2 * m + 1) (2 * m + 1)
          (generateMaze rng m t).2).2.1
        (max ((2 * m + 1 : ℕ) : ℤ) ((2 * m + 1 : ℕ) : ℤ)) ∨
    ((placeSpawns rng (generateMaze rng m t).1.carved (2 * m + 1) (2 * m + 1)
        (generateMaze rng m t).2).2.1 ∈ (generateMaze rng m t).1.carved ∧
      (∀ q ∈ (generateMaze rng m t).1.carved,
        sqDist (placeSpawns rng (generateMaze rng m t).1.carved (2 * m + 1) (2 * m + 1)
            (generateMaze rng m t).2).1 q ≤
          sqDist (placeSpawns rng (generateMaze rng m t).1.carved (2 * m + 1) (2 * m + 1)
              (generateMaze rng m t).2).1
            (placeSpawns rng (generateMaze rng m t).1.carved (2 * m + 1) (2 * m + 1)
              (generateMaze rng m t).2).2.1) ∧
      ∃ l1 l2, coordList (2 * m + 1) (2 * m + 1) =
          l1 ++ (placeSpawns rng (generateMaze rng m t).1.carved (2 * m + 1) (2 * m + 1)
            (generateMaze rng m t).2).2.1 :: l2 ∧
        ∀ q ∈ l1, q ∈ (generateMaze rng m t).1.carved →
          sqDist (placeSpawns rng (generateMaze rng m t).1.carved (2 * m + 1) (2 * m + 1)
              (generateMaze rng m t).2).1 q <
            sqDist (placeSpawns rng (generateMaze rng m t).1.carved (2 * m + 1) (2 * m + 1)
                (generateMaze rng m t).2).1
              (placeSpawns rng (generateMaze rng m t).1.carved (2 * m + 1) (2 * m + 1)
                (generateMaze rng m t).2).2.1) := by
  obtain ⟨h11, hbnd0, -, -, -⟩ := generateMaze_facts rng m t hm
  have hbd : ∀ p ∈ (generateMaze rng m t).1.carved,
      0 ≤ p.1 ∧ p.1 < ((2 * m + 1 : ℕ) : ℤ) ∧ 0 ≤ p.2 ∧ p.2 < ((2 * m + 1 : ℕ) : ℤ) := by
    intro p hp
    have := hbnd0 p hp
    unfold inTB at this
    push_cast
    omega
  exact finishSpawns_spec (generateMaze rng m t).1.carved (2 * m + 1) (2 * m + 1) hbd
    ⟨(1, 1), h11⟩ _

theorem spawns_separated_or_scan_maximal_witness :
    1 ≤ 1 ∧
    (¬ closePair
        (placeSpawns (fun _ => 0) (generateMaze (fun _ => 0) 1 0).1.carved (2 * 1 + 1) (2 * 1 + 1)
          (generateMaze (fun _ => 0) 1 0).2).1
        (placeSpawns (fun _ => 0) (generateMaze (fun _ => 0) 1 0).1.carved (2 * 1 + 1) (2 * 1 + 1)
          (generateMaze (fun _ => 0) 1 0).2).2.1
        (max ((2 * 1 + 1 : ℕ) : ℤ) ((2 * 1 + 1 : ℕ) : ℤ)) ∨
      ((placeSpawns (fun _ => 0) (generateMaze (fun _ => 0) 1 0).1.carved (2 * 1 + 1) (2 * 1 + 1)
          (generateMaze (fun _ => 0) 1 0).2).2.1 ∈ (generateMaze (fun _ => 0) 1 0).1.carved ∧
        (∀ q ∈ (generateMaze (fun _ => 0) 1 0).1.carved,
          sqDist (placeSpawns (fun _ => 0) (generateMaze (fun _ => 0) 1 0).1.carved (2 * 1 + 1) (2 * 1 + 1)
              (generateMaze (fun _ => 0) 1 0).2).1 q ≤
            sqDist (placeSpawns (fun _ => 0) (generateMaze (fun _ => 0) 1 0).1.carved (2 * 1 + 1) (2 * 1 + 1)
                (generateMaze (fun _ => 0) 1 0).2).1
              (placeSpawns (fun _ => 0) (generateMaze (fun _ => 0) 1 0).1.carved (2 * 1 + 1) (2 * 1 + 1)
                (generateMaze (fun _ => 0) 1 0).2).2.1) ∧
        ∃ l1 l2, coordList (2 * 1 + 1) (2 * 1 + 1) =
            l1 ++ (placeSpawns (fun _ => 0) (generateMaze (fun _ => 0) 1 0).1.carved (2 * 1 + 1) (2 * 1 + 1)
              (generateMaze (fun _ => 0) 1 0).2).2.1 :: l2 ∧
          ∀ q ∈ l1, q ∈ (generateMaze (fun _ => 0) 1 0).1.carved →
            sqDist (placeSpawns (fun _ => 0) (generateMaze (fun _ => 0) 1 0).1.carved (2 * 1 + 1) (2 * 1 + 1)
                (generateMaze (fun _ => 0) 1 0).2).1 q <
              sqDist (placeSpawns (fun _ => 0) (generateMaze (fun _ => 0) 1 0).1.carved (2 * 1 + 1) (2 * 1 + 1)
                  (generateMaze (fun _ => 0) 1 0).2).1
                (placeSpawns (fun _ => 0) (generateMaze (fun _ => 0) 1 0).1.carved (2 * 1 + 1) (2 * 1 + 1)
                  (generateMaze (fun _ => 0) 1 0).2).2.1)) :=
  ⟨le_refl 1, spawns_separated_or_scan_maximal (fun _ => 0) 1 0 (le_refl 1)⟩

/-! ## Association-list lemmas -/

theorem alookup_setEntry_self {β : Type} (k : String) (v : β) :
    ∀ (l : List (String × β)) (w : β), alookup k l = some w →
      alookup k (setEntry k v l) = some v := by
  intro l
  induction l with
  | nil => intro w hw; simp [alookup] at hw
  | cons p l ih =>
    intro w hw
    rcases p with ⟨k2, v2⟩
    by_cases hk : k2 = k
    · rw [setEntry, if_pos hk, alookup, if_pos hk]
    · rw [alookup, if_neg hk] at hw
      rw [setEntry, if_neg hk, alookup, if_neg hk]
      exact ih w hw

theorem alookup_setEntry_other {β : Type} {k k2 : String} (v : β) (h : k2 ≠ k) :
    ∀ l : List (String × β), alookup k2 (setEntry k v l) = alookup k2 l := by
  intro l
  induction l with
  | nil => rfl
  | cons p l ih =>
    rcases p with ⟨k3, v3⟩
    by_cases hk : k3 = k
    · subst hk
      rw [setEntry, if_pos rfl, alookup, if_neg fun he => h he.symm, alookup,
        if_neg fun he => h he.symm]
    · rw [setEntry, if_neg hk, alookup, alookup]
      by_cases hk2 : k3 = k2
      · rw [if_pos hk2, if_pos hk2]
      · rw [if_neg hk2, if_neg hk2]
        exact ih

theorem alookup_mem {β : Type} {k : String} {v : β} :
    ∀ {l : List (String × β)}, alookup k l = some v → (k, v) ∈ l := by
  intro l
  induction l with
  | nil => intro hw; simp [alookup] at hw
  | cons p l ih =>
    intro hw
    rcases p with ⟨k2, v2⟩
    by_cases hk : k2 = k
    · rw [alookup, if_pos hk] at hw
      subst hk
      rw [Option.some_inj] at hw
      subst hw
      exact List.mem_cons_self _ _
    · rw [alookup, if_neg hk] at hw
      exact List.mem_cons_of_mem _ (ih hw)

theorem alookup_none_of_keys {β : Type} {k : String} :
    ∀ {l : List (String × β)}, (∀ p ∈ l, p.1 ≠ k) → alookup k l = none := by
  intro l
  induction l with
  | nil => intro _; rfl
  | cons p l ih =>
    intro h
    rcases p with ⟨k2, v2⟩
    rw [alookup, if_neg (h (k2, v2) (List.mem_cons_self _ _))]
    exact ih fun q hq => h q (List.mem_cons_of_mem _ hq)

theorem alookup_keys_of_none {β : Type} {k : String} :
    ∀ {l : List (String × β)}, alookup k l = none → ∀ p ∈ l, p.1 ≠ k := by
  intro l
  induction l with
  | nil => intro _ p hp; exact absurd hp (List.not_mem_nil p)
  | cons q l ih =>
    intro h p hp
    rcases q with ⟨k2, v2⟩
    rw [alookup] at h
    split at h
    · exact absurd h (by simp)
    · rcases List.mem_cons.mp hp with hh | hh
      · subst hh; assumption
      · exact ih h p hh

theorem filter_ne_of_none {β : Type} {k : String} :
    ∀ {l : List (String × β)}, alookup k l = none →
      l.filter (fun p => decide (p.1 ≠ k)) = l := by
  intro l h
  refine List.filter_eq_self.mpr ?_
  intro p hp
  exact decide_eq_true (alookup_keys_of_none h p hp)

theorem alookup_filter_ne_self {β : Type} (k : String) (l : List (String × β)) :
    alookup k (l.filter fun p => decide (p.1 ≠ k)) = none := by
  refine alookup_none_of_keys ?_
  intro p hp
  have := (List.mem_filter.mp hp).2
  exact of_decide_eq_true this

theorem alookup_filter_ne_other {β : Type} {k k2 : String} (h : k2 ≠ k) :
    ∀ l : List (String × β),
      alookup k2 (l.filter fun p => decide (p.1 ≠ k)) = alookup k2 l := by
  intro l
  induction l with
  | nil => rfl
  | cons p l ih =>
    rcases p with ⟨k3, v3⟩
    by_cases hk : k3 = k
    · subst hk
      rw [List.filter_cons, if_neg (by simp)]
      have hrhs : alookup k2 ((k3, v3) :: l) = alookup k2 l := by
        rw [alookup, if_neg fun he => h he.symm]
      rw [hrhs]
      exact ih
    · rw [List.filter_cons, if_pos (by simp [hk])]
      rw [alookup, alookup]
      by_cases hk2 : k3 = k2
      · rw [if_pos hk2, if_pos hk2]
      · rw [if_neg hk2, if_neg hk2]
        exact ih

theorem filter_idem {β : Type} (q : β → Bool) :
    ∀ l : List β, (l.filter q).filter q = l.filter q := by
  intro l
  induction l with
  | nil => rfl
  | cons p l ih =>
    rw [List.filter_cons]
    by_cases hq : q p
    · rw [if_pos hq, List.filter_cons, if_pos hq, ih]
    · rw [if_neg hq, ih]

theorem alookup_filter_keep {β : Type} (q : String × β → Bool) {k : String} {v : β} :
    ∀ l : List (String × β), alookup k l = some v → q (k, v) = true →
      alookup k (l.filter q) = some v := by
  intro l
  induction l with
  | nil => intro hw; simp [alookup] at hw
  | cons p l ih =>
    intro hw hq
    rcases p with ⟨k2, v2⟩
    by_cases hk : k2 = k
    · rw [alookup, if_pos hk] at hw
      rw [Option.some_inj] at hw
      subst hk; subst hw
      rw [List.filter_cons, if_pos hq, alookup, if_pos rfl]
    · rw [alookup, if_neg hk] at hw
      rw [List.filter_cons]
      by_cases hq2 : q (k2, v2)
      · rw [if_pos hq2, alookup, if_neg hk]
        exact ih hw hq
      · rw [if_neg (by simpa using hq2)]
        exact ih hw hq

theorem alookup_filter_drop {β : Type} (q : String × β → Bool) {k : String} {v : β} :
    ∀ l : List (String × β), (l.map Prod.fst).Nodup → alookup k l = some v →
      q (k, v) = false → alookup k (l.filter q) = none := by
  intro l
  induction l with
  | nil => intro _ hw; simp [alookup] at hw
  | cons p l ih =>
    intro hnd hw hq
    rcases p with ⟨k2, v2⟩
    rw [List.map_cons, List.nodup_cons] at hnd
    by_cases hk : k2 = k
    · rw [alookup, if_pos hk] at hw
      rw [Option.some_inj] at hw
      subst hk; subst hw
      rw [List.filter_cons, if_neg (by simpa using hq)]
      refine alookup_none_of_keys ?_
      intro p hp
      have hpl := (List.mem_filter.mp hp).1
      intro hpk
      exact hnd.1 (List.mem_map.mpr ⟨p, hpl, hpk⟩)
    · rw [alookup, if_neg hk] at hw
      rw [List.filter_cons]
      by_cases hq2 : q (k2, v2)
      · rw [if_pos hq2, alookup, if_neg hk]
        exact ih hnd.2 hw hq
      · rw [if_neg (by simpa using hq2)]
        exact ih hnd.2 hw hq

/-- Dichotomy of the abstracted `move` handler (`moveHandler`, the model
with the prototype chain of the client-keyed lookups collapsed, which is
the branch `moveHandlerJs` agrees on): every rejection — unknown room id,
non-member sender, unknown direction token, out-of-bounds or wall
candidate — returns the state unchanged with no broadcast, and an accepted
move updates exactly the moving player's position, emits a state
broadcast, and leaves the room's maze, every other player's entry and
every other room's entry untouched.  This is *not* the full story of the
source for arbitrary client tokens: for `Object.prototype` property names
the source throws instead of no-opping — see
`moveHandlerJs_prototype_throws` (claim C3). -/
theorem moveHandler_dichotomy (st : ServerSt) (sid rid dir : String) :
    (alookup rid st.rooms = none → moveHandler st sid rid dir = (st, [])) ∧
    (∀ r, alookup rid st.rooms = some r →
      (alookup sid r.players = none → moveHandler st sid rid dir = (st, [])) ∧
      (∀ pl, alookup sid r.players = some pl →
        (deltas dir = none → moveHandler st sid rid dir = (st, [])) ∧
        (∀ d, deltas dir = some d →
          ((pl.x + d.1 < 0 ∨ pl.y + d.2 < 0 ∨ r.maze.width ≤ pl.x + d.1 ∨
              r.maze.height ≤ pl.y + d.2) →
            moveHandler st sid rid dir = (st, [])) ∧
          (¬(pl.x + d.1 < 0 ∨ pl.y + d.2 < 0 ∨ r.maze.width ≤ pl.x + d.1 ∨
              r.maze.height ≤ pl.y + d.2) →
            ((pl.x + d.1, pl.y + d.2) ∉ r.maze.carved →
              moveHandler st sid rid dir = (st, [])) ∧
            ((pl.x + d.1, pl.y + d.2) ∈ r.maze.carved →
              (moveHandler st sid rid dir).1.waiting = st.waiting ∧
              (moveHandler st sid rid dir).1.rooms =
                setEntry rid
                  ⟨r.maze, setEntry sid
                    ⟨pl.x + d.1, pl.y + d.2, pl.color, pl.exitX, pl.exitY⟩ r.players⟩
                  st.rooms ∧
              (∃ evs2, (moveHandler st sid rid dir).2 =
                Ev.stateB rid (setEntry sid
                  ⟨pl.x + d.1, pl.y + d.2, pl.color, pl.exitX, pl.exitY⟩
                  r.players) :: evs2) ∧
              alookup sid (setEntry sid
                ⟨pl.x + d.1, pl.y + d.2, pl.color, pl.exitX, pl.exitY⟩ r.players) =
                some ⟨pl.x + d.1, pl.y + d.2, pl.color, pl.exitX, pl.exitY⟩ ∧
              (∀ k, k ≠ sid → alookup k (setEntry sid
                ⟨pl.x + d.1, pl.y + d.2, pl.color, pl.exitX, pl.exitY⟩ r.players) =
                alookup k r.players) ∧
              (∀ rid2, rid2 ≠ rid →
                alookup rid2 (moveHandler st sid rid dir).1.rooms =
                  alookup rid2 st.rooms)))))) := by
  constructor
  · intro h1
    simp only [moveHandler, h1]
  · intro r h1
    constructor
    · intro h2
      simp only [moveHandler, h1, h2]
    · intro pl h2
      constructor
      · intro h3
        simp only [moveHandler, h1, h2, h3]
      · intro d h3
        constructor
        · intro h4
          simp only [moveHandler, h1, h2, h3]
          rw [if_pos h4]
        · intro h4
          constructor
          · intro h5
            simp only [moveHandler, h1, h2, h3]
            rw [if_neg h4, if_pos h5]
          · intro h5
            by_cases hwin : pl.x + d.1 = pl.exitX ∧ pl.y + d.2 = pl.exitY
            · have hres : moveHandler st sid rid dir =
                  ({ st with
                      rooms := setEntry rid
                        ⟨r.maze, setEntry sid
                          ⟨pl.x + d.1, pl.y + d.2, pl.color, pl.exitX, pl.exitY⟩
                          r.players⟩ st.rooms
                      timers := st.timers ++ [(4500, rid)] },
                   [Ev.stateB rid
                      (setEntry sid
                        ⟨pl.x + d.1, pl.y + d.2, pl.color, pl.exitX, pl.exitY⟩
                        r.players),
                    Ev.gameOver rid sid pl.color,
                    Ev.revealM rid r.maze.carved]) := by
                simp only [moveHandler, h1, h2, h3]
                rw [if_neg h4, if_neg fun hc => hc h5, if_pos hwin]
              rw [hres]
              refine ⟨rfl, rfl, ⟨_, rfl⟩, ?_, ?_, ?_⟩
              · exact alookup_setEntry_self sid _ r.players pl h2
              · intro k hk
                exact alookup_setEntry_other _ hk r.players
              · intro rid2 hrid2
                exact alookup_setEntry_other _ hrid2 st.rooms
            · have hres : moveHandler st sid rid dir =
                  ({ st with
                      rooms := setEntry rid
                        ⟨r.maze, setEntry sid
                          ⟨pl.x + d.1, pl.y + d.2, pl.color, pl.exitX, pl.exitY⟩
                          r.players⟩ st.rooms },
                   [Ev.stateB rid
                      (setEntry sid
                        ⟨pl.x + d.1, pl.y + d.2, pl.color, pl.exitX, pl.exitY⟩
                        r.players)]) := by
                simp only [moveHandler, h1, h2, h3]
                rw [if_neg h4, if_neg fun hc => hc h5, if_neg hwin]
              rw [hres]
              refine ⟨rfl, rfl, ⟨_, rfl⟩, ?_, ?_, ?_⟩
              · exact alookup_setEntry_self sid _ r.players pl h2
              · intro k hk
                exact alookup_setEntry_other _ hk r.players
              · intro rid2 hrid2
                exact alookup_setEntry_other _ hrid2 st.rooms

theorem moveHandler_dichotomy_witness :
    moveHandler ⟨none, [], [], 0⟩ "a" "r" "up" = (⟨none, [], [], 0⟩, []) ∧
    (moveHandler exSt "b" "r" "left").1.rooms =
      setEntry "r" ⟨exRoom.maze, setEntry "b"
        ⟨exPlB.x + ((-1 : ℤ), (0 : ℤ)).1, exPlB.y + ((-1 : ℤ), (0 : ℤ)).2,
          exPlB.color, exPlB.exitX, exPlB.exitY⟩ exRoom.players⟩ exSt.rooms :=
  ⟨(moveHandler_dichotomy ⟨none, [], [], 0⟩ "a" "r" "up").1 rfl,
    (((((moveHandler_dichotomy exSt "b" "r" "left").2 exRoom (by decide)).2 exPlB
      (by decide)).2 (-1, 0) (by decide)).2 (by decide)).2 (by decide) |>.2.1⟩

/-- **C3.** The claim is right and the code is wrong (spec §7: any
malformed client input must be absorbed as a silent no-op).  Evaluating
the move handler under the real prototype-chain semantics of its two
client-keyed object lookups at the failing inputs: a registered room
member sending the direction token `toString` — or the room id
`toString` — makes the source throw an uncaught `TypeError` (the `!d` /
`!r` guard passes on the truthy inherited `Object.prototype` member, the
candidate coordinates become `NaN`, and `r.maze.grid[ny][nx]` /
`r.players[socket.id]` dereferences `undefined`) instead of silently
no-opping.  An ordinary unknown token such as `north` is a silent no-op
as claimed, and on a valid move the refined handler agrees with the
abstracted model. -/
theorem moveHandlerJs_prototype_throws :
    moveHandlerJs exSt "a" "r" "toString" = Except.error "TypeError" ∧
    moveHandlerJs exSt "a" "toString" "up" = Except.error "TypeError" ∧
    moveHandlerJs exSt "a" "r" "north" = Except.ok (exSt, []) ∧
    moveHandlerJs exSt "a" "r" "right" = Except.ok (moveHandler exSt "a" "r" "right") := by
  refine ⟨?_, ?_, ?_, ?_⟩ <;> rfl

/-- **C2 (amended).** A move that brings a player's position to equal its
goal produces exactly one state broadcast, then exactly one game-over
broadcast naming that player (and its color), then exactly one full-maze
reveal broadcast, and appends exactly one scheduled teardown of the room at
4500 ms; the room is not removed by the handler itself (it is still in the
registry afterwards), and firing the scheduled teardown removes it.  The
room is, however, not marked finished: until the teardown fires the room
remains in the registry and further moves are still accepted and applied as
state changes (see the counterexample for the original claim). -/
theorem winningMove_broadcasts_and_schedules_teardown
    (st : ServerSt) (sid rid dir : String) (r : Room) (pl : PState) (d : ℤ × ℤ)
    (h1 : alookup rid st.rooms = some r) (h2 : alookup sid r.players = some pl)
    (h3 : deltas dir = some d)
    (h4 : ¬(pl.x + d.1 < 0 ∨ pl.y + d.2 < 0 ∨ r.maze.width ≤ pl.x + d.1 ∨
      r.maze.height ≤ pl.y + d.2))
    (h5 : (pl.x + d.1, pl.y + d.2) ∈ r.maze.carved)
    (h6 : pl.x + d.1 = pl.exitX ∧ pl.y + d.2 = pl.exitY) :
    moveHandler st sid rid dir =
      ({ st with
          rooms := setEntry rid ⟨r.maze, setEntry sid
            ⟨pl.x + d.1, pl.y + d.2, pl.color, pl.exitX, pl.exitY⟩ r.players⟩ st.rooms
          timers := st.timers ++ [(4500, rid)] },
       [Ev.stateB rid (setEntry sid
          ⟨pl.x + d.1, pl.y + d.2, pl.color, pl.exitX, pl.exitY⟩ r.players),
        Ev.gameOver rid sid pl.color,
        Ev.revealM rid r.maze.carved]) ∧
    alookup rid (moveHandler st sid rid dir).1.rooms =
      some ⟨r.maze, setEntry sid
        ⟨pl.x + d.1, pl.y + d.2, pl.color, pl.exitX, pl.exitY⟩ r.players⟩ ∧
    alookup rid (destroyRoom (moveHandler st sid rid dir).1 rid).rooms = none := by
  have hres : moveHandler st sid rid dir =
      ({ st with
          rooms := setEntry rid ⟨r.maze, setEntry sid
            ⟨pl.x + d.1, pl.y + d.2, pl.color, pl.exitX, pl.exitY⟩ r.players⟩ st.rooms
          timers := st.timers ++ [(4500, rid)] },
       [Ev.stateB rid (setEntry sid
          ⟨pl.x + d.1, pl.y + d.2, pl.color, pl.exitX, pl.exitY⟩ r.players),
        Ev.gameOver rid sid pl.color,
        Ev.revealM rid r.maze.carved]) := by
    simp only [moveHandler, h1, h2, h3]
    rw [if_neg h4, if_neg fun hc => hc h5, if_pos h6]
  refine ⟨hres, ?_, ?_⟩
  · rw [hres]
    exact alookup_setEntry_self rid _ st.rooms r h1
  · rw [hres]
    exact alookup_filter_ne_self rid _

theorem winningMove_broadcasts_and_schedules_teardown_witness :
    moveHandler exSt "a" "r" "right" =
      (⟨none, [("r", ⟨exMaze, [("a", ⟨2, 1, "#34ff72", 2, 1⟩), ("b", exPlB)]⟩)],
          [(4500, "r")], 0⟩,
       [Ev.stateB "r" [("a", ⟨2, 1, "#34ff72", 2, 1⟩), ("b", exPlB)],
        Ev.gameOver "r" "a" "#34ff72",
        Ev.revealM "r" exMaze.carved]) ∧
    alookup "r" (moveHandler exSt "a" "r" "right").1.rooms =
      some ⟨exMaze, [("a", ⟨2, 1, "#34ff72", 2, 1⟩), ("b", exPlB)]⟩ ∧
    alookup "r" (destroyRoom (moveHandler exSt "a" "r" "right").1 "r").rooms = none :=
  winningMove_broadcasts_and_schedules_teardown exSt "a" "r" "right" exRoom exPlA (1, 0)
    (by decide) (by decide) (by decide) (by decide) (by decide) (by decide)

/-- **C2, counterexample to the original claim.** After a winning move (the
game-over broadcast for player `a` is emitted), the room is still live: a
further move by the same player is accepted, changes the server state, and
produces a broadcast — the code never marks a room finished, so moves keep
being applied as state changes during the 4500 ms teardown window. -/
theorem moves_still_accepted_after_win :
    Ev.gameOver "r" "a" "#34ff72" ∈ (moveHandler exSt "a" "r" "right").2 ∧
    (moveHandler (moveHandler exSt "a" "r" "right").1 "a" "r" "right").2 ≠ [] ∧
    (moveHandler (moveHandler exSt "a" "r" "right").1 "a" "r" "right").1 ≠
      (moveHandler exSt "a" "r" "right").1 := by
  decide

theorem generateMaze_width (rng : ℕ → ℕ) (n t : ℕ) :
    (generateMaze rng n t).1.width = 2 * (n : ℤ) + 1 := rfl

theorem generateMaze_height (rng : ℕ → ℕ) (n t : ℕ) :
    (generateMaze rng n t).1.height = 2 * (n : ℤ) + 1 := rfl

/-- **C5.** The matchmaking rendezvous: with no pending participant the
requester is stored as pending and signalled; a duplicate request from the
pending participant itself re-signals and leaves the whole state unchanged
(no self-pairing); a request from a distinct participant clears the pending
slot and registers a room containing both participants. -/
theorem findMatch_rendezvous (rng : ℕ → ℕ) (now : ℕ) (st : ServerSt) (sid : String) :
    (st.waiting = none → findMatch rng now st sid =
      ({ st with waiting := some sid }, [Ev.statusTo sid "Waiting for an opponent..."])) ∧
    (st.waiting = some sid → findMatch rng now st sid =
      (st, [Ev.statusTo sid "Still waiting..."])) ∧
    (∀ wid, st.waiting = some wid → wid ≠ sid →
      (findMatch rng now st sid).1.waiting = none ∧
      ∃ room : Room, (findMatch rng now st sid).1.rooms =
        (makeRoomId wid sid now, room) :: st.rooms ∧
        (∃ pa, alookup wid room.players = some pa) ∧
        (∃ pb, alookup sid room.players = some pb)) := by
  refine ⟨?_, ?_, ?_⟩
  · intro h
    simp only [findMatch, h]
  · intro h
    simp only [findMatch, h]
    rw [if_pos trivial]
  · intro wid h hne
    simp only [findMatch, h]
    rw [if_neg hne]
    refine ⟨rfl, _, rfl, ?_, ?_⟩
    · exact ⟨_, by rw [alookup, if_pos rfl]⟩
    · exact ⟨_, by rw [alookup, if_neg hne, alookup, if_pos rfl]⟩

theorem findMatch_rendezvous_witness :
    (findMatch (fun _ => 0) 0 ⟨none, [], [], 0⟩ "a" =
      (⟨some "a", [], [], 0⟩, [Ev.statusTo "a" "Waiting for an opponent..."])) ∧
    (findMatch (fun _ => 0) 0 ⟨some "a", [], [], 0⟩ "a" =
      (⟨some "a", [], [], 0⟩, [Ev.statusTo "a" "Still waiting..."])) ∧
    (findMatch (fun _ => 0) 0 ⟨some "a", [], [], 0⟩ "b").1.waiting = none :=
  ⟨(findMatch_rendezvous (fun _ => 0) 0 ⟨none, [], [], 0⟩ "a").1 rfl,
    (findMatch_rendezvous (fun _ => 0) 0 ⟨some "a", [], [], 0⟩ "a").2.1 rfl,
    ((findMatch_rendezvous (fun _ => 0) 0 ⟨some "a", [], [], 0⟩ "b").2.2 "a" rfl
      (by decide)).1⟩

/-- **C6.** When two distinct participants are paired, a single
`matchFound` payload is broadcast to the room (so both participants receive
the same room id), carrying a 15 × 15 grid (`n = 7`), and the goal
assignments are mirrored: the pending participant's goal equals the
requester's spawn and vice versa. -/
theorem matchFound_mirrored (rng : ℕ → ℕ) (now : ℕ) (st : ServerSt) (sid wid : String)
    (h : st.waiting = some wid) (hne : wid ≠ sid) :
    ∃ (carved : Finset Tile) (pa pb : PState),
      (findMatch rng now st sid).2 =
        [Ev.matchFound (makeRoomId wid sid now) carved 15 15 [(wid, pa), (sid, pb)],
         Ev.statusRoom (makeRoomId wid sid now)
           "Game started — reach the glowing exit!"] ∧
      pa.exitX = pb.x ∧ pa.exitY = pb.y ∧ pb.exitX = pa.x ∧ pb.exitY = pa.y := by
  have hw : (generateMaze rng MAZE_LOGICAL st.ctr).1.width = (15 : ℤ) := by
    rw [generateMaze_width]
    norm_num [MAZE_LOGICAL]
  have hh : (generateMaze rng MAZE_LOGICAL st.ctr).1.height = (15 : ℤ) := by
    rw [generateMaze_height]
    norm_num [MAZE_LOGICAL]
  refine ⟨(generateMaze rng MAZE_LOGICAL st.ctr).1.carved,
    ⟨(placeSpawns rng (generateMaze rng MAZE_LOGICAL st.ctr).1.carved
        (2 * MAZE_LOGICAL + 1) (2 * MAZE_LOGICAL + 1)
        (generateMaze rng MAZE_LOGICAL st.ctr).2).1.1,
      (placeSpawns rng (generateMaze rng MAZE_LOGICAL st.ctr).1.carved
        (2 * MAZE_LOGICAL + 1) (2 * MAZE_LOGICAL + 1)
        (generateMaze rng MAZE_LOGICAL st.ctr).2).1.2,
      "#34ff72",
      (placeSpawns rng (generateMaze rng MAZE_LOGICAL st.ctr).1.carved
        (2 * MAZE_LOGICAL + 1) (2 * MAZE_LOGICAL + 1)
        (generateMaze rng MAZE_LOGICAL st.ctr).2).2.1.1,
      (placeSpawns rng (generateMaze rng MAZE_LOGICAL st.ctr).1.carved
        (2 * MAZE_LOGICAL + 1) (2 * MAZE_LOGICAL + 1)
        (generateMaze rng MAZE_LOGICAL st.ctr).2).2.1.2⟩,
    ⟨(placeSpawns rng (generateMaze rng MAZE_LOGICAL st.ctr).1.carved
        (2 * MAZE_LOGICAL + 1) (2 * MAZE_LOGICAL + 1)
        (generateMaze rng MAZE_LOGICAL st.ctr).2).2.1.1,
      (placeSpawns rng (generateMaze rng MAZE_LOGICAL st.ctr).1.carved
        (2 * MAZE_LOGICAL + 1) (2 * MAZE_LOGICAL + 1)
        (generateMaze rng MAZE_LOGICAL st.ctr).2).2.1.2,
      "#ff4d9e",
      (placeSpawns rng (generateMaze rng MAZE_LOGICAL st.ctr).1.carved
        (2 * MAZE_LOGICAL + 1) (2 * MAZE_LOGICAL + 1)
        (generateMaze rng MAZE_LOGICAL st.ctr).2).1.1,
      (placeSpawns rng (generateMaze rng MAZE_LOGICAL st.ctr).1.carved
        (2 * MAZE_LOGICAL + 1) (2 * MAZE_LOGICAL + 1)
        (generateMaze rng MAZE_LOGICAL st.ctr).2).1.2⟩,
    ?_, rfl, rfl, rfl, rfl⟩
  simp only [findMatch, h]
  rw [if_neg hne, hw, hh]

theorem matchFound_mirrored_witness :
    ∃ (carved : Finset Tile) (pa pb : PState),
      (findMatch (fun _ => 0) 0 ⟨some "a", [], [], 0⟩ "b").2 =
        [Ev.matchFound (makeRoomId "a" "b" 0) carved 15 15 [("a", pa), ("b", pb)],
         Ev.statusRoom (makeRoomId "a" "b" 0)
           "Game started — reach the glowing exit!"] ∧
      pa.exitX = pb.x ∧ pa.exitY = pb.y ∧ pb.exitX = pa.x ∧ pb.exitY = pa.y :=
  matchFound_mirrored (fun _ => 0) 0 ⟨some "a", [], [], 0⟩ "b" "a" rfl (by decide)

/-- **C7.** Disconnects: if the leaver is the pending participant the slot
is cleared, so the next request from a new participant becomes the new
pending entry; if the leaver belongs to a registered room (the registry's
keys being unique), the other occupant is notified by an
opponent-disconnected broadcast for that room, the room is removed from the
registry in the same handler with no timer involved (zero delay), and rooms
not containing the leaver are untouched.  The code keeps no Active/Finished
flag, so this holds regardless of whether a win already happened. -/
theorem disconnect_clears_pending_and_rooms (st : ServerSt) (sid : String) :
    ((st.waiting = some sid → (disconnectH st sid).1.waiting = none) ∧
      (∀ (rng : ℕ → ℕ) (now : ℕ) (nid : String), st.waiting = some sid →
        (findMatch rng now (disconnectH st sid).1 nid).1.waiting = some nid)) ∧
    (∀ rid r, (st.rooms.map Prod.fst).Nodup → alookup rid st.rooms = some r →
      alookup sid r.players ≠ none →
      Ev.oppDisc rid ∈ (disconnectH st sid).2 ∧
      alookup rid (disconnectH st sid).1.rooms = none ∧
      (disconnectH st sid).1.timers = st.timers) ∧
    (∀ rid r, alookup rid st.rooms = some r → alookup sid r.players = none →
      alookup rid (disconnectH st sid).1.rooms = some r) := by
  refine ⟨⟨?_, ?_⟩, ?_, ?_⟩
  · intro h
    simp only [disconnectH, h]
    rw [if_pos trivial]
  · intro rng now nid h
    have hwn : (disconnectH st sid).1.waiting = none := by
      simp only [disconnectH, h]
      rw [if_pos trivial]
    simp only [findMatch, hwn]
  · intro rid r hnd h1 h2
    refine ⟨?_, ?_, rfl⟩
    · have hmem : (rid, r) ∈ st.rooms := alookup_mem h1
      have hkeep : (rid, r) ∈ st.rooms.filter
          fun p => decide (¬ alookup sid p.2.players = none) := by
        rw [List.mem_filter]
        exact ⟨hmem, decide_eq_true h2⟩
      exact List.mem_map.mpr ⟨(rid, r), hkeep, rfl⟩
    · exact alookup_filter_drop _ st.rooms hnd h1 (by simpa using h2)
  · intro rid r h1 h2
    exact alookup_filter_keep _ st.rooms h1 (decide_eq_true h2)

theorem disconnect_clears_pending_and_rooms_witness :
    ((disconnectH ⟨some "a", [], [], 0⟩ "a").1.waiting = none ∧
      (findMatch (fun _ => 0) 0 (disconnectH ⟨some "a", [], [], 0⟩ "a").1 "c").1.waiting =
        some "c") ∧
    (Ev.oppDisc "r" ∈ (disconnectH exSt "a").2 ∧
      alookup "r" (disconnectH exSt "a").1.rooms = none ∧
      (disconnectH exSt "a").1.timers = exSt.timers) ∧
    alookup "r" (disconnectH exSt "c").1.rooms = some exRoom :=
  ⟨⟨(disconnect_clears_pending_and_rooms ⟨some "a", [], [], 0⟩ "a").1.1 rfl,
      (disconnect_clears_pending_and_rooms ⟨some "a", [], [], 0⟩ "a").1.2
        (fun _ => 0) 0 "c" rfl⟩,
    (disconnect_clears_pending_and_rooms exSt "a").2.1 "r" exRoom (by decide)
      (by decide) (by decide),
    (disconnect_clears_pending_and_rooms exSt "c").2.2 "r" exRoom (by decide)
      (by decide)⟩

/-- **C8.** Destroying a room that is no longer in the registry is a no-op:
the registry is returned unchanged (and the operation is a total function,
so no error is raised); destroying twice equals destroying once; and a
destroy never touches any other room's entry. -/
theorem destroyRoom_idempotent (st : ServerSt) (rid : String) :
    (alookup rid st.rooms = none → destroyRoom st rid = st) ∧
    destroyRoom (destroyRoom st rid) rid = destroyRoom st rid ∧
    (∀ rid2, rid2 ≠ rid →
      alookup rid2 (destroyRoom st rid).rooms = alookup rid2 st.rooms) := by
  refine ⟨?_, ?_, ?_⟩
  · intro h
    show { st with rooms := _ } = st
    rw [filter_ne_of_none h]
  · show ({ st with rooms := _ } : ServerSt) = { st with rooms := _ }
    rw [ServerSt.mk.injEq]
    exact ⟨rfl, filter_idem _ st.rooms, rfl, rfl⟩
  · intro rid2 h
    exact alookup_filter_ne_other h st.rooms

theorem destroyRoom_idempotent_witness :
    (destroyRoom exSt "nope" = exSt) ∧
    alookup "q" (destroyRoom exSt "r").rooms = alookup "q" exSt.rooms :=
  ⟨(destroyRoom_idempotent exSt "nope").1 (by decide),
    (destroyRoom_idempotent exSt "r").2.2 "q" (by decide)⟩
